import Mathlib

/-!
Verification of the BTC put-selling backtest engine.

Shallow embedding of the repository's core:
* the flat-premium strategy engine (`src/strategy/optionStrategy.ts`), namespace `Flat`;
* the Black-Scholes strategy engine variant (second `OptionStrategy` source), namespace `BS`;
* the backtest driver with date filtering (`backtestStrategy`), namespace `Backtest`;
* the historical-volatility estimator (`calculateHistoricalVolatility`), namespace `Vol`;
* the Black-Scholes pricing routines (`calculateCallPrice`, `calculateOptionPremium`,
  `erf`, `normalCDF`), namespace `Pricing`.

Modelling conventions: ISO timestamps are embedded as integers (milliseconds since
epoch; `isAfter a b` is `b < a`, `addDays` adds `86400000` per day), `Decimal.js`
values as exact rationals, and JavaScript `number` float math as real numbers.
-/

namespace BtcOptions

/-- `BTCPriceData`: one price point `{t, p}`; the ISO timestamp is an integer instant. -/
structure BTCPriceData where
  t : Int
  p : Rat
deriving DecidableEq

/-- Milliseconds per day, used by `addDays` on integer instants. -/
def msPerDay : Int := 86400000

/-- `addDays(parseISO(t), d)` on integer instants. -/
def addDays (t : Int) (d : Int) : Int := t + d * msPerDay

/-- `StrategyConfig` from `src/types/priceData.ts`. -/
structure StrategyConfig where
  initialBTC : Rat
  initialUSD : Rat
  putOptionPremiumPercent : Rat
  strikePercentage : Rat
  daysToExpiration : Int
deriving DecidableEq

/-- The `action` field of a `TradeRecord`. -/
inductive TradeAction where
  | sellPut
  | putExpired
  | putAssigned
deriving DecidableEq

namespace Flat

/-- `OptionContract` (flat-premium engine): all monetary amounts are `Decimal`s,
embedded as rationals.  The constant `type: 'PUT'` field is omitted. -/
structure OptionContract where
  strikePrice : Rat
  premium : Rat
  createdAt : Int
  expiresAt : Int
  isActive : Bool
  wasAssigned : Bool
deriving DecidableEq

/-- `TradeRecord` (flat-premium engine). `strikePrice` and `premium` are optional
in the TypeScript interface. -/
structure TradeRecord where
  timestamp : Int
  action : TradeAction
  btcPrice : Rat
  strikePrice : Option Rat
  premium : Option Rat
  btcBalance : Rat
  usdBalance : Rat
deriving DecidableEq

/-- The mutable fields of the `OptionStrategy` class (flat-premium engine),
together with its immutable `config`. -/
structure State where
  btcBalance : Rat
  usdBalance : Rat
  config : StrategyConfig
  activeOptions : List OptionContract
  trades : List TradeRecord
  totalPremiumCollected : Rat
  assignedPuts : Nat
deriving DecidableEq

/-- The `OptionStrategy` constructor. -/
def initState (config : StrategyConfig) : State :=
  { btcBalance := config.initialBTC
    usdBalance := config.initialUSD
    config := config
    activeOptions := []
    trades := []
    totalPremiumCollected := 0
    assignedPuts := 0 }

/-- The loop body of `checkExpirations`: walk the active options, settling each
expired one (assignment when `currentPrice < strikePrice`, otherwise expiry) and
collecting the still-active ones into `acc`; at the end `activeOptions` is
replaced by the collected list. -/
def checkExpLoop (currentTime : Int) (currentPrice : Rat) :
    List OptionContract → State → List OptionContract → State
  | [], s, acc => { s with activeOptions := acc }
  | o :: rest, s, acc =>
    if o.isActive = false then
      checkExpLoop currentTime currentPrice rest s acc
    else if o.expiresAt < currentTime then
      if currentPrice < o.strikePrice then
        let btcAmount := s.usdBalance / o.strikePrice
        let btcBalance' := s.btcBalance + btcAmount
        checkExpLoop currentTime currentPrice rest
          { s with
            btcBalance := btcBalance'
            usdBalance := 0
            assignedPuts := s.assignedPuts + 1
            trades := s.trades ++
              [{ timestamp := currentTime
                 action := .putAssigned
                 btcPrice := currentPrice
                 strikePrice := some o.strikePrice
                 premium := none
                 btcBalance := btcBalance'
                 usdBalance := 0 }] } acc
      else
        checkExpLoop currentTime currentPrice rest
          { s with
            trades := s.trades ++
              [{ timestamp := currentTime
                 action := .putExpired
                 btcPrice := currentPrice
                 strikePrice := some o.strikePrice
                 premium := none
                 btcBalance := s.btcBalance
                 usdBalance := s.usdBalance }] } acc
    else
      checkExpLoop currentTime currentPrice rest s (acc ++ [o])

/-- `checkExpirations(currentTime, currentPrice)`. -/
def checkExpirations (currentTime : Int) (currentPrice : Rat) (s : State) : State :=
  checkExpLoop currentTime currentPrice s.activeOptions s []

/-- `considerSellingPut(priceData)`: sell a new put only when `usdBalance > 0`
and no option is active; the strike is `price * (1 - strikePercentage)` and the
premium the flat percentage `strike * putOptionPremiumPercent`. -/
def considerSellingPut (priceData : BTCPriceData) (s : State) : State :=
  let currentPrice := priceData.p
  if 0 < s.usdBalance ∧ s.activeOptions = [] then
    let strikePrice := currentPrice * (1 - s.config.strikePercentage)
    let premium := strikePrice * s.config.putOptionPremiumPercent
    let expiresAt := addDays priceData.t s.config.daysToExpiration
    let newOption : OptionContract :=
      { strikePrice := strikePrice
        premium := premium
        createdAt := priceData.t
        expiresAt := expiresAt
        isActive := true
        wasAssigned := false }
    let usdBalance' := s.usdBalance + premium
    { s with
      activeOptions := s.activeOptions ++ [newOption]
      usdBalance := usdBalance'
      totalPremiumCollected := s.totalPremiumCollected + premium
      trades := s.trades ++
        [{ timestamp := priceData.t
           action := .sellPut
           btcPrice := currentPrice
           strikePrice := some strikePrice
           premium := some premium
           btcBalance := s.btcBalance
           usdBalance := usdBalance' }] }
  else s

/-- `processPriceData(priceData)`: settle expirations, then consider selling. -/
def processPriceData (priceData : BTCPriceData) (s : State) : State :=
  considerSellingPut priceData (checkExpirations priceData.t priceData.p s)

/-- Run the flat-premium engine from a fresh state over a price sequence. -/
def runFlat (config : StrategyConfig) (l : List BTCPriceData) : State :=
  l.foldl (fun s d => processPriceData d s) (initState config)

end Flat

/-- `true` exactly for the settlement actions `PUT_EXPIRED` and `PUT_ASSIGNED`. -/
def isSettlement : TradeAction → Bool
  | .sellPut => false
  | .putExpired => true
  | .putAssigned => true

/-- Scan a ledger's action sequence with a flag recording whether a sold put is
outstanding: `SELL_PUT` is admissible only when the flag is off and raises it, a
settlement action clears it.  The result is `none` when two `SELL_PUT`s occur
with no intervening settlement, otherwise `some` of the final flag. -/
def scanLedger (b : Bool) : List TradeAction → Option Bool
  | [] => some b
  | a :: rest =>
    match a with
    | .sellPut => if b then none else scanLedger true rest
    | _ => scanLedger false rest

/-- The actions of a flat-engine ledger, in order. -/
def tradeActions (l : List Flat.TradeRecord) : List TradeAction := l.map (·.action)

namespace Flat

/-- Settlement classification recorded correctly in one trade record: a
`PUT_ASSIGNED` record carries a strike strictly above its settlement price, a
`PUT_EXPIRED` record a strike at or below it. -/
def settleOk (tr : TradeRecord) : Prop :=
  (tr.action = .putAssigned → ∃ k, tr.strikePrice = some k ∧ tr.btcPrice < k)
  ∧ (tr.action = .putExpired → ∃ k, tr.strikePrice = some k ∧ k ≤ tr.btcPrice)

/-- A `PUT_ASSIGNED` record occurs somewhere in the ledger. -/
def hasAssigned (l : List TradeRecord) : Prop := ∃ tr ∈ l, tr.action = .putAssigned

/-- The run invariant of the flat-premium engine: at most one active contract,
every listed contract is flagged active, the ledger alternates `SELL_PUT` with
settlements (the scan flag matching whether a contract is open), every
settlement record is classified consistently with its recorded strike, and once
an assignment is recorded the cash is exactly zero, no contract is active, and
the assignment closes the ledger. -/
def Inv (s : State) : Prop :=
  s.activeOptions.length ≤ 1
  ∧ (∀ o ∈ s.activeOptions, o.isActive = true)
  ∧ scanLedger false (tradeActions s.trades) = some (decide (s.activeOptions ≠ []))
  ∧ (∀ tr ∈ s.trades, settleOk tr)
  ∧ (hasAssigned s.trades →
      s.usdBalance = 0 ∧ s.activeOptions = [] ∧
        (s.trades.getLast?).map (·.action) = some .putAssigned)

end Flat

/-- Worked-example configuration: `{initialBTC 0, initialUSD 1000, premium 2%,
strike discount 5%, 7-day expiry}`. -/
def wCfg : StrategyConfig := ⟨0, 1000, 2/100, 5/100, 7⟩

/-- The contract sold at `t0 = 0` under `wCfg` at spot `100`: strike `95`,
premium `1.9`, expiring at `t0 + 7` days. -/
def wOpt : Flat.OptionContract := ⟨95, 19/10, 0, 604800000, true, false⟩

/-- The engine state after the `(t0, 100)` tick under `wCfg`. -/
def wState : Flat.State := ⟨0, 10019/10, wCfg, [wOpt],
  [⟨0, .sellPut, 100, some 95, some (19/10), 0, 10019/10⟩], 19/10, 0⟩

namespace Backtest

/-- The two failure modes of `backtestStrategy`: `emptyInput` stands for
`throw new Error('Price data cannot be empty')` and `emptyRange` for
`throw new Error('No data points found in the specified date range')`. -/
inductive BacktestError where
  | emptyInput
  | emptyRange
deriving DecidableEq

/-- `BacktestResults` (date-range variant of `backtest.ts`). -/
structure Results where
  startingBTC : Rat
  finalBTC : Rat
  startingUSD : Rat
  finalUSD : Rat
  totalTrades : Nat
  assignedPuts : Nat
  totalPremiumCollected : Rat
  trades : List Flat.TradeRecord
  startDate : Int
  endDate : Int
deriving DecidableEq

/-- The sort comparator `(a, b) => new Date(a.t).getTime() - new Date(b.t).getTime()`,
as the Boolean order it induces on timestamps (JavaScript `sort` is stable, as is
`List.mergeSort`). -/
def tsLe (a b : BTCPriceData) : Bool := a.t ≤ b.t

/-- The date-range filter predicate: drop a point when it is strictly before
`startDate` or strictly after `endDate` (when those bounds are supplied). -/
def inRange (startDate endDate : Option Int) (d : BTCPriceData) : Bool :=
  (match startDate with
   | some sd => !(d.t < sd)
   | none => true)
  &&
  (match endDate with
   | some ed => !(ed < d.t)
   | none => true)

/-- The data actually fed to the engine: a sorted defensive copy of the input,
filtered by the optional date range. -/
def filteredInput (priceData : List BTCPriceData) (startDate endDate : Option Int) :
    List BTCPriceData :=
  (priceData.mergeSort tsLe).filter (inRange startDate endDate)

/-- `backtestStrategy(priceData, strategy, startDate?, endDate?)`: fail on empty
input, sort a copy ascending by timestamp, filter by the date range, fail if
nothing remains, otherwise process every remaining point in order and assemble
the results snapshot. -/
def backtestStrategy (priceData : List BTCPriceData) (strategy : Flat.State)
    (startDate endDate : Option Int) : Except BacktestError Results :=
  if priceData.length = 0 then .error .emptyInput
  else
    let filteredData := filteredInput priceData startDate endDate
    if filteredData.length = 0 then .error .emptyRange
    else
      let startingBTC := strategy.btcBalance
      let startingUSD := strategy.usdBalance
      let final := filteredData.foldl (fun s d => Flat.processPriceData d s) strategy
      .ok
        { startingBTC := startingBTC
          finalBTC := final.btcBalance
          startingUSD := startingUSD
          finalUSD := final.usdBalance
          totalTrades := final.trades.length
          assignedPuts := final.assignedPuts
          totalPremiumCollected := final.totalPremiumCollected
          trades := final.trades
          startDate := (filteredData.headD ⟨0, 0⟩).t
          endDate := (filteredData.getLastD ⟨0, 0⟩).t }

end Backtest

namespace Vol

/-- One iteration of the log-return loop of `calculateHistoricalVolatility`
(iteration `i = j + 1` of `for i = 1..windowSize`): the log return between
`priceData[length - i]` and `priceData[length - i - 1]`, in the idealized
real-number semantics (well-defined whenever the prices used are positive;
the float special values produced on other inputs are captured exactly by the
`JsNum` model below). -/
noncomputable def logReturnAt (priceData : List BTCPriceData) (j : Nat) : ℝ :=
  Real.log ((priceData.getD (priceData.length - (j + 1)) ⟨0, 0⟩).p : ℝ) -
    Real.log ((priceData.getD (priceData.length - (j + 2)) ⟨0, 0⟩).p : ℝ)

/-- The `try` block of `calculateHistoricalVolatility`, idealized real-number
semantics: the last `windowSize` log returns (newest first, exactly as the
source loop indexes them), their sample mean (the source's `reduce` is a left
fold), Bessel-corrected sample variance, annualization by `√365`, and the
clamp to `[0.1, 2.0]`. -/
noncomputable def volatilityBody (priceData : List BTCPriceData) (windowSize : Nat) : ℝ :=
  let logReturns := (List.range windowSize).map (logReturnAt priceData)
  let mean := logReturns.foldl (· + ·) 0 / (logReturns.length : ℝ)
  let variance := (logReturns.map (fun r => (r - mean) ^ 2)).foldl (· + ·) 0 /
    ((logReturns.length : ℝ) - 1)
  let stdDev := Real.sqrt variance
  min (max (stdDev * Real.sqrt 365) 0.1) 2.0

/-- `calculateHistoricalVolatility(priceData, windowSize = 30)`, idealized
real-number semantics (the value consumed by the Black-Scholes engine
embedding): default `0.5` when fewer than `windowSize + 1` points are
available, the clamped annualized sample volatility otherwise.  The source's
`try`/`catch` is dead code under decimal.js semantics — `Decimal.ln` never
throws — so no failure path exists here; what the floats actually do on
zero/negative prices (NaN / `-Infinity` propagation) is modelled faithfully by
`calculateHistoricalVolatilityJs` below, and the two agree on sufficient
windows of positive prices. -/
noncomputable def calculateHistoricalVolatility (priceData : List BTCPriceData)
    (windowSize : Nat := 30) : ℝ :=
  if priceData.length < windowSize + 1 then 0.5
  else volatilityBody priceData windowSize

/-- A JavaScript IEEE-754 double, as the estimator sees it: `NaN`,
`+Infinity`, `-Infinity`, or an (idealized, exact) finite value. -/
inductive JsNum where
  | nan
  | inf
  | ninf
  | fin (x : ℝ)

/-- `Decimal.ln(p).toNumber()` as decimal.js actually behaves: `NaN` for a
negative argument, `-Infinity` for zero, the logarithm otherwise — it never
throws, so the estimator's `catch` is unreachable. -/
noncomputable def lnJs (p : Rat) : JsNum :=
  if p < 0 then .nan else if p = 0 then .ninf else .fin (Real.log (p : ℝ))

/-- IEEE addition on the special values (`Infinity + -Infinity = NaN`). -/
def addJs : JsNum → JsNum → JsNum
  | .nan, _ => .nan
  | _, .nan => .nan
  | .inf, .ninf => .nan
  | .ninf, .inf => .nan
  | .inf, _ => .inf
  | _, .inf => .inf
  | .ninf, _ => .ninf
  | _, .ninf => .ninf
  | .fin a, .fin b => .fin (a + b)

/-- IEEE subtraction on the special values (`Infinity - Infinity = NaN`). -/
def subJs : JsNum → JsNum → JsNum
  | .nan, _ => .nan
  | _, .nan => .nan
  | .inf, .inf => .nan
  | .ninf, .ninf => .nan
  | .inf, _ => .inf
  | .ninf, _ => .ninf
  | .fin _, .inf => .ninf
  | .fin _, .ninf => .inf
  | .fin a, .fin b => .fin (a - b)

/-- IEEE multiplication on the special values (`Infinity * 0 = NaN`). -/
noncomputable def mulJs : JsNum → JsNum → JsNum
  | .nan, _ => .nan
  | _, .nan => .nan
  | .inf, .inf => .inf
  | .inf, .ninf => .ninf
  | .ninf, .inf => .ninf
  | .ninf, .ninf => .inf
  | .inf, .fin b => if b = 0 then .nan else if b < 0 then .ninf else .inf
  | .fin a, .inf => if a = 0 then .nan else if a < 0 then .ninf else .inf
  | .ninf, .fin b => if b = 0 then .nan else if b < 0 then .inf else .ninf
  | .fin a, .ninf => if a = 0 then .nan else if a < 0 then .inf else .ninf
  | .fin a, .fin b => .fin (a * b)

/-- IEEE division on the special values (`0 / 0 = NaN`, `x / 0 = ±Infinity`,
`Infinity / Infinity = NaN`; the divisors used by the estimator are `NaN` or
positive, so the `+0` sign convention is immaterial). -/
noncomputable def divJs : JsNum → JsNum → JsNum
  | .nan, _ => .nan
  | _, .nan => .nan
  | .inf, .inf => .nan
  | .inf, .ninf => .nan
  | .ninf, .inf => .nan
  | .ninf, .ninf => .nan
  | .inf, .fin b => if b < 0 then .ninf else .inf
  | .ninf, .fin b => if b < 0 then .inf else .ninf
  | .fin _, .inf => .fin 0
  | .fin _, .ninf => .fin 0
  | .fin a, .fin b =>
    if b = 0 then (if a = 0 then .nan else if a < 0 then .ninf else .inf)
    else .fin (a / b)

/-- `Math.pow(x, 2)` on the special values. -/
noncomputable def sqJs : JsNum → JsNum
  | .nan => .nan
  | .inf => .inf
  | .ninf => .inf
  | .fin a => .fin (a ^ 2)

/-- `Math.sqrt` on the special values (`NaN` for a negative argument). -/
noncomputable def sqrtJs : JsNum → JsNum
  | .nan => .nan
  | .inf => .inf
  | .ninf => .nan
  | .fin a => if a < 0 then .nan else .fin (Real.sqrt a)

/-- `Math.max` (returns `NaN` if either argument is `NaN`). -/
noncomputable def maxJs : JsNum → JsNum → JsNum
  | .nan, _ => .nan
  | _, .nan => .nan
  | .inf, _ => .inf
  | _, .inf => .inf
  | .ninf, x => x
  | x, .ninf => x
  | .fin a, .fin b => .fin (max a b)

/-- `Math.min` (returns `NaN` if either argument is `NaN`). -/
noncomputable def minJs : JsNum → JsNum → JsNum
  | .nan, _ => .nan
  | _, .nan => .nan
  | .ninf, _ => .ninf
  | _, .ninf => .ninf
  | .inf, x => x
  | x, .inf => x
  | .fin a, .fin b => .fin (min a b)

/-- One iteration of the log-return loop under the faithful float semantics. -/
noncomputable def logReturnAtJs (priceData : List BTCPriceData) (j : Nat) : JsNum :=
  subJs (lnJs (priceData.getD (priceData.length - (j + 1)) ⟨0, 0⟩).p)
    (lnJs (priceData.getD (priceData.length - (j + 2)) ⟨0, 0⟩).p)

/-- `calculateHistoricalVolatility` under the faithful float semantics: the
same computation as the source, with decimal.js/IEEE special values — `NaN`
and `±Infinity` flow through the mean, variance, `Math.sqrt`, and the
`Math.min`/`Math.max` clamp instead of being caught (the `catch` never
fires). -/
noncomputable def calculateHistoricalVolatilityJs (priceData : List BTCPriceData)
    (windowSize : Nat := 30) : JsNum :=
  if priceData.length < windowSize + 1 then .fin 0.5
  else
    let logReturns := (List.range windowSize).map (logReturnAtJs priceData)
    let mean := divJs (logReturns.foldl addJs (.fin 0)) (.fin (logReturns.length : ℝ))
    let variance := divJs
      ((logReturns.map (fun r => sqJs (subJs r mean))).foldl addJs (.fin 0))
      (.fin ((logReturns.length : ℝ) - 1))
    let stdDev := sqrtJs variance
    minJs (maxJs (mulJs stdDev (sqrtJs (.fin 365))) (.fin 0.1)) (.fin 2.0)

end Vol

/-- A sufficient estimator window (31 points, the default `windowSize + 1`)
whose newest price is negative, so the first log return is `Decimal.ln` of a
negative value: `NaN` under decimal.js semantics. -/
def wNeg : List BTCPriceData :=
  (List.range 31).map (fun (i : ℕ) => if i = 30 then ⟨(i : Int), -1⟩ else ⟨(i : Int), 1⟩)

namespace Pricing

/-- Abramowitz–Stegun coefficient `a1`. -/
def a1 : ℝ := 0.254829592
/-- Abramowitz–Stegun coefficient `a2`. -/
def a2 : ℝ := -0.284496736
/-- Abramowitz–Stegun coefficient `a3`. -/
def a3 : ℝ := 1.421413741
/-- Abramowitz–Stegun coefficient `a4`. -/
def a4 : ℝ := -1.453152027
/-- Abramowitz–Stegun coefficient `a5`. -/
def a5 : ℝ := 1.061405429
/-- Abramowitz–Stegun coefficient `p`. -/
def pAS : ℝ := 0.3275911

/-- The Horner polynomial `(((((a5*t + a4)*t) + a3)*t + a2)*t + a1)*t` of the
rational error-function approximation. -/
def hornerP (t : ℝ) : ℝ := (((((a5 * t + a4) * t) + a3) * t + a2) * t + a1) * t

/-- `t = 1 / (1 + p*x)` of the rational error-function approximation. -/
noncomputable def tAS (x : ℝ) : ℝ := 1 / (1 + pAS * x)

/-- The `erf` method: sign reduction to `|x|`, then the Abramowitz–Stegun
rational approximation `1 - P(t) * exp(-x*x)`. -/
noncomputable def erf (x : ℝ) : ℝ :=
  let sign : ℝ := if x < 0 then -1 else 1
  let x' := |x|
  let t := tAS x'
  let y := 1 - hornerP t * Real.exp (-x' * x')
  sign * y

/-- The `normalCDF` method: `0.5 * (1 + erf (x / √2))`. -/
noncomputable def normalCDF (x : ℝ) : ℝ := 0.5 * (1 + erf (x / Real.sqrt 2))

/-- The Black-Scholes `d1` term, exactly as computed in `calculateCallPrice`. -/
noncomputable def d1 (currentPrice strikePrice timeToExpiry volatility riskFreeRate : ℝ) : ℝ :=
  (Real.log (currentPrice / strikePrice) +
      (riskFreeRate + volatility * volatility / 2) * timeToExpiry) /
    (volatility * Real.sqrt timeToExpiry)

/-- The Black-Scholes `d2 = d1 - σ√t` term. -/
noncomputable def d2 (currentPrice strikePrice timeToExpiry volatility riskFreeRate : ℝ) : ℝ :=
  d1 currentPrice strikePrice timeToExpiry volatility riskFreeRate -
    volatility * Real.sqrt timeToExpiry

/-- The `calculateCallPrice` method:
`S·Φ(d1) - K·exp(-r·t)·Φ(d2)`. -/
noncomputable def calculateCallPrice
    (currentPrice strikePrice timeToExpiry volatility riskFreeRate : ℝ) : ℝ :=
  currentPrice * normalCDF (d1 currentPrice strikePrice timeToExpiry volatility riskFreeRate) -
    strikePrice * Real.exp (-riskFreeRate * timeToExpiry) *
      normalCDF (d2 currentPrice strikePrice timeToExpiry volatility riskFreeRate)

/-- The `calculateOptionPremium` method: put-call parity
`put = call + K·exp(-r·t) - S` at the module's fixed risk-free rate `0.05`. -/
noncomputable def calculateOptionPremium
    (currentPrice strikePrice timeToExpiry volatility : ℝ) : ℝ :=
  let riskFreeRate : ℝ := 0.05
  calculateCallPrice currentPrice strikePrice timeToExpiry volatility riskFreeRate +
    strikePrice * Real.exp (-riskFreeRate * timeToExpiry) - currentPrice

end Pricing

namespace BS

/-- `OptionContract` for the Black-Scholes engine variant: the strike is exact
`Decimal` arithmetic (rational), the premium a float (real). -/
structure OptionContract where
  strikePrice : Rat
  premium : ℝ
  createdAt : Int
  expiresAt : Int
  isActive : Bool
  wasAssigned : Bool

/-- `TradeRecord` for the Black-Scholes engine variant. -/
structure TradeRecord where
  timestamp : Int
  action : TradeAction
  btcPrice : Rat
  strikePrice : Option Rat
  premium : Option ℝ
  btcBalance : ℝ
  usdBalance : ℝ

/-- The fields of the Black-Scholes `OptionStrategy` class, including the
retained price history window and the last-seen date. -/
structure State where
  btcBalance : ℝ
  usdBalance : ℝ
  config : StrategyConfig
  activeOptions : List OptionContract
  trades : List TradeRecord
  totalPremiumCollected : ℝ
  assignedPuts : Nat
  priceHistory : List BTCPriceData
  currentDate : Int

/-- `maxPriceHistory = 100`: the history window bound. -/
def maxPriceHistory : Nat := 100

/-- `minPriceHistory = 31`: the minimum history required before selling. -/
def minPriceHistory : Nat := 31

/-- The Black-Scholes engine constructor (`currentDate` starts as the empty
string, modelled as instant `0`; it is overwritten before any use). -/
noncomputable def initState (config : StrategyConfig) : State :=
  { btcBalance := (config.initialBTC : ℝ)
    usdBalance := (config.initialUSD : ℝ)
    config := config
    activeOptions := []
    trades := []
    totalPremiumCollected := 0
    assignedPuts := 0
    priceHistory := []
    currentDate := 0 }

/-- `updatePriceHistory(priceData)`: append only when strictly after the last
retained point (keeping the history chronological), then evict the oldest point
once the bound `maxPriceHistory` is exceeded. -/
def updatePriceHistory (priceData : BTCPriceData) (hist : List BTCPriceData) :
    List BTCPriceData :=
  let shouldAdd : Bool :=
    match hist.getLast? with
    | none => true
    | some lastPoint => lastPoint.t < priceData.t
  if shouldAdd then
    let hist' := hist ++ [priceData]
    if maxPriceHistory < hist'.length then hist'.tail else hist'
  else hist

/-- `getPastPriceHistory(currentDate)`: the retained points not after the given
instant. -/
def getPastPriceHistory (currentDate : Int) (hist : List BTCPriceData) :
    List BTCPriceData :=
  hist.filter (fun d => decide (d.t ≤ currentDate))

/-- The loop body of the Black-Scholes engine's `checkExpirations` (identical
logic to the flat engine's, with float balances). -/
noncomputable def checkExpLoop (currentTime : Int) (currentPrice : Rat) :
    List OptionContract → State → List OptionContract → State
  | [], s, acc => { s with activeOptions := acc }
  | o :: rest, s, acc =>
    if o.isActive = false then
      checkExpLoop currentTime currentPrice rest s acc
    else if o.expiresAt < currentTime then
      if currentPrice < o.strikePrice then
        let btcAmount := s.usdBalance / (o.strikePrice : ℝ)
        let btcBalance' := s.btcBalance + btcAmount
        checkExpLoop currentTime currentPrice rest
          { s with
            btcBalance := btcBalance'
            usdBalance := 0
            assignedPuts := s.assignedPuts + 1
            trades := s.trades ++
              [{ timestamp := currentTime
                 action := .putAssigned
                 btcPrice := currentPrice
                 strikePrice := some o.strikePrice
                 premium := none
                 btcBalance := btcBalance'
                 usdBalance := 0 }] } acc
      else
        checkExpLoop currentTime currentPrice rest
          { s with
            trades := s.trades ++
              [{ timestamp := currentTime
                 action := .putExpired
                 btcPrice := currentPrice
                 strikePrice := some o.strikePrice
                 premium := none
                 btcBalance := s.btcBalance
                 usdBalance := s.usdBalance }] } acc
    else
      checkExpLoop currentTime currentPrice rest s (acc ++ [o])

/-- `checkExpirations` of the Black-Scholes engine. -/
noncomputable def checkExpirations (currentTime : Int) (currentPrice : Rat) (s : State) :
    State :=
  checkExpLoop currentTime currentPrice s.activeOptions s []

/-- `considerSellingPut(priceData)` of the Black-Scholes engine: same guard as
the flat engine, but the premium comes from `calculateOptionPremium` with the
historical volatility of the retained history up to the current date. -/
noncomputable def considerSellingPut (priceData : BTCPriceData) (s : State) : State :=
  let currentPrice := priceData.p
  if 0 < s.usdBalance ∧ s.activeOptions.length = 0 then
    let strikePrice := currentPrice * (1 - s.config.strikePercentage)
    let timeToExpiry : ℝ := (s.config.daysToExpiration : ℝ) / 365
    let pastPriceHistory := getPastPriceHistory priceData.t s.priceHistory
    let volatility := Vol.calculateHistoricalVolatility pastPriceHistory 30
    let premium := Pricing.calculateOptionPremium (currentPrice : ℝ) (strikePrice : ℝ)
      timeToExpiry volatility
    let expiresAt := addDays priceData.t s.config.daysToExpiration
    let newOption : OptionContract :=
      { strikePrice := strikePrice
        premium := premium
        createdAt := priceData.t
        expiresAt := expiresAt
        isActive := true
        wasAssigned := false }
    let usdBalance' := s.usdBalance + premium
    { s with
      activeOptions := s.activeOptions ++ [newOption]
      usdBalance := usdBalance'
      totalPremiumCollected := s.totalPremiumCollected + premium
      trades := s.trades ++
        [{ timestamp := priceData.t
           action := .sellPut
           btcPrice := currentPrice
           strikePrice := some strikePrice
           premium := some premium
           btcBalance := s.btcBalance
           usdBalance := usdBalance' }] }
  else s

/-- `processPriceData(priceData)` of the Black-Scholes engine: record the
current date, update the price history, settle expirations, and only when at
least `minPriceHistory` points are retained consider selling a new put. -/
noncomputable def processPriceData (priceData : BTCPriceData) (s : State) : State :=
  let s1 := { s with
    currentDate := priceData.t
    priceHistory := updatePriceHistory priceData s.priceHistory }
  let s2 := checkExpirations priceData.t priceData.p s1
  if minPriceHistory ≤ s2.priceHistory.length then considerSellingPut priceData s2 else s2

/-- Run the Black-Scholes engine from a fresh state over a price sequence. -/
noncomputable def runBS (config : StrategyConfig) (l : List BTCPriceData) : State :=
  l.foldl (fun s d => processPriceData d s) (initState config)

/-- The issuance-gating property along a run: at each step, whenever the
post-update history passes the `minPriceHistory` gate, the filtered history
handed to the volatility estimator still holds at least `minPriceHistory`
points (so the estimator's insufficient-history default cannot be used). -/
def sellsGatedFrom : State → List BTCPriceData → Prop
  | _, [] => True
  | s, d :: rest =>
    (minPriceHistory ≤ (updatePriceHistory d s.priceHistory).length →
      minPriceHistory ≤ (getPastPriceHistory d.t (updatePriceHistory d s.priceHistory)).length)
    ∧ sellsGatedFrom (processPriceData d s) rest

end BS

end BtcOptions

/-! ## Lemmas and theorems -/

namespace BtcOptions

theorem scanLedger_append (l₁ l₂ : List TradeAction) (b b' : Bool)
    (h : scanLedger b l₁ = some b') :
    scanLedger b (l₁ ++ l₂) = scanLedger b' l₂ := by
  induction l₁ generalizing b with
  | nil =>
    simp only [scanLedger] at h
    cases h
    simp
  | cons a rest ih =>
    cases a with
    | sellPut =>
      by_cases hb : b
      · simp [scanLedger, hb] at h
      · simp only [hb, scanLedger, List.cons_append, if_false, Bool.false_eq_true] at h ⊢
        exact ih _ h
    | putExpired =>
      simp only [scanLedger, List.cons_append] at h ⊢
      exact ih _ h
    | putAssigned =>
      simp only [scanLedger, List.cons_append] at h ⊢
      exact ih _ h

namespace Flat

theorem checkExp_empty (t : Int) (p : Rat) (s : State) (h : s.activeOptions = []) :
    checkExpirations t p s = s := by
  unfold checkExpirations
  rw [h]
  show { s with activeOptions := [] } = s
  rw [← h]

theorem checkExp_assigned (t : Int) (p : Rat) (s : State) (o : OptionContract)
    (hact : s.activeOptions = [o]) (hA : o.isActive = true)
    (hexp : o.expiresAt < t) (hp : p < o.strikePrice) :
    checkExpirations t p s =
      { s with
        btcBalance := s.btcBalance + s.usdBalance / o.strikePrice
        usdBalance := 0
        activeOptions := []
        assignedPuts := s.assignedPuts + 1
        trades := s.trades ++
          [{ timestamp := t
             action := .putAssigned
             btcPrice := p
             strikePrice := some o.strikePrice
             premium := none
             btcBalance := s.btcBalance + s.usdBalance / o.strikePrice
             usdBalance := 0 }] } := by
  unfold checkExpirations
  rw [hact]
  simp [checkExpLoop, hA, hexp, hp]

theorem checkExp_expired (t : Int) (p : Rat) (s : State) (o : OptionContract)
    (hact : s.activeOptions = [o]) (hA : o.isActive = true)
    (hexp : o.expiresAt < t) (hp : ¬ p < o.strikePrice) :
    checkExpirations t p s =
      { s with
        activeOptions := []
        trades := s.trades ++
          [{ timestamp := t
             action := .putExpired
             btcPrice := p
             strikePrice := some o.strikePrice
             premium := none
             btcBalance := s.btcBalance
             usdBalance := s.usdBalance }] } := by
  unfold checkExpirations
  rw [hact]
  simp [checkExpLoop, hA, hexp, hp]

theorem checkExp_keep (t : Int) (p : Rat) (s : State) (o : OptionContract)
    (hact : s.activeOptions = [o]) (hA : o.isActive = true)
    (hexp : ¬ o.expiresAt < t) :
    checkExpirations t p s = s := by
  unfold checkExpirations
  rw [hact]
  simp only [checkExpLoop, hA, hexp, Bool.true_eq_false, if_false, ite_false, List.nil_append]
  show { s with activeOptions := [o] } = s
  rw [← hact]

theorem considerSell_of_not (d : BTCPriceData) (s : State)
    (h : ¬(0 < s.usdBalance ∧ s.activeOptions = [])) :
    considerSellingPut d s = s := by
  simp [considerSellingPut, h]

theorem considerSell_of_sell (d : BTCPriceData) (s : State)
    (h1 : 0 < s.usdBalance) (h2 : s.activeOptions = []) :
    considerSellingPut d s =
      { s with
        activeOptions := s.activeOptions ++
          [{ strikePrice := d.p * (1 - s.config.strikePercentage)
             premium := d.p * (1 - s.config.strikePercentage) * s.config.putOptionPremiumPercent
             createdAt := d.t
             expiresAt := addDays d.t s.config.daysToExpiration
             isActive := true
             wasAssigned := false }]
        usdBalance := s.usdBalance +
          d.p * (1 - s.config.strikePercentage) * s.config.putOptionPremiumPercent
        totalPremiumCollected := s.totalPremiumCollected +
          d.p * (1 - s.config.strikePercentage) * s.config.putOptionPremiumPercent
        trades := s.trades ++
          [{ timestamp := d.t
             action := .sellPut
             btcPrice := d.p
             strikePrice := some (d.p * (1 - s.config.strikePercentage))
             premium := some (d.p * (1 - s.config.strikePercentage) *
               s.config.putOptionPremiumPercent)
             btcBalance := s.btcBalance
             usdBalance := s.usdBalance +
               d.p * (1 - s.config.strikePercentage) * s.config.putOptionPremiumPercent }] } := by
  simp [considerSellingPut, h1, h2]

end Flat

end BtcOptions

namespace BtcOptions

theorem hasAssigned_append (l : List Flat.TradeRecord) (tr : Flat.TradeRecord) :
    Flat.hasAssigned (l ++ [tr]) ↔ Flat.hasAssigned l ∨ tr.action = .putAssigned := by
  simp only [Flat.hasAssigned, List.mem_append, List.mem_singleton]
  constructor
  · rintro ⟨x, hx | hx, hax⟩
    · exact Or.inl ⟨x, hx, hax⟩
    · subst hx
      exact Or.inr hax
  · rintro (⟨x, hx, hax⟩ | h)
    · exact ⟨x, Or.inl hx, hax⟩
    · exact ⟨tr, Or.inr rfl, h⟩

namespace Flat

theorem inv_init (config : StrategyConfig) : Inv (initState config) := by
  refine ⟨by simp [initState], by simp [initState],
    by simp [initState, tradeActions, scanLedger], by simp [initState], ?_⟩
  intro h
  simp [initState, hasAssigned] at h

theorem inv_checkExp (t : Int) (p : Rat) (s : State) (hInv : Inv s) :
    Inv (checkExpirations t p s) := by
  obtain ⟨hlen, hact, hscan, hok, hassign⟩ := hInv
  cases hA : s.activeOptions with
  | nil =>
    rw [checkExp_empty _ _ _ hA]
    exact ⟨hlen, hact, hscan, hok, hassign⟩
  | cons o rest =>
    cases rest with
    | cons o' rest' =>
      rw [hA] at hlen
      simp at hlen
    | nil =>
      have ho : o.isActive = true := hact o (by rw [hA]; simp)
      have hnoass : ¬ hasAssigned s.trades := by
        intro h
        have := (hassign h).2.1
        rw [this] at hA
        exact List.noConfusion hA
      have hscan' : scanLedger false (tradeActions s.trades) = some true := by
        rw [hA] at hscan
        simpa using hscan
      by_cases hexp : o.expiresAt < t
      · by_cases hp : p < o.strikePrice
        · rw [checkExp_assigned _ _ _ _ hA ho hexp hp]
          refine ⟨by simp, by simp, ?_, ?_, ?_⟩
          · have h2 : scanLedger false (tradeActions s.trades ++ [TradeAction.putAssigned]) =
                some false := by
              rw [scanLedger_append _ _ _ _ hscan']
              simp [scanLedger]
            simpa [tradeActions] using h2
          · intro tr htr
            rcases List.mem_append.1 htr with h | h
            · exact hok tr h
            · simp only [List.mem_singleton] at h
              subst h
              exact ⟨fun _ => ⟨o.strikePrice, rfl, hp⟩, by simp⟩
          · intro _
            exact ⟨rfl, rfl, by simp⟩
        · rw [checkExp_expired _ _ _ _ hA ho hexp hp]
          refine ⟨by simp, by simp, ?_, ?_, ?_⟩
          · have h2 : scanLedger false (tradeActions s.trades ++ [TradeAction.putExpired]) =
                some false := by
              rw [scanLedger_append _ _ _ _ hscan']
              simp [scanLedger]
            simpa [tradeActions] using h2
          · intro tr htr
            rcases List.mem_append.1 htr with h | h
            · exact hok tr h
            · simp only [List.mem_singleton] at h
              subst h
              exact ⟨by simp, fun _ => ⟨o.strikePrice, rfl, le_of_not_lt hp⟩⟩
          · intro h
            rw [hasAssigned_append] at h
            rcases h with h | h
            · exact absurd h hnoass
            · simp at h
      · rw [checkExp_keep _ _ _ _ hA ho hexp]
        exact ⟨hlen, hact, hscan, hok, hassign⟩

theorem inv_consider (d : BTCPriceData) (s : State) (hInv : Inv s) :
    Inv (considerSellingPut d s) := by
  obtain ⟨hlen, hact, hscan, hok, hassign⟩ := hInv
  by_cases hsell : 0 < s.usdBalance ∧ s.activeOptions = []
  · rw [considerSell_of_sell _ _ hsell.1 hsell.2, hsell.2]
    have hnoass : ¬ hasAssigned s.trades := by
      intro h
      have := (hassign h).1
      rw [this] at hsell
      exact lt_irrefl 0 hsell.1
    have hscan0 : scanLedger false (tradeActions s.trades) = some false := by
      rw [hsell.2] at hscan
      simpa using hscan
    refine ⟨by simp, by simp, ?_, ?_, ?_⟩
    · have h2 : scanLedger false (tradeActions s.trades ++ [TradeAction.sellPut]) =
          some true := by
        rw [scanLedger_append _ _ _ _ hscan0]
        simp [scanLedger]
      simpa [tradeActions] using h2
    · intro tr htr
      rcases List.mem_append.1 htr with h | h
      · exact hok tr h
      · simp only [List.mem_singleton] at h
        subst h
        exact ⟨by simp, by simp⟩
    · intro h
      rw [hasAssigned_append] at h
      rcases h with h | h
      · exact absurd h hnoass
      · simp at h
  · rw [considerSell_of_not _ _ hsell]
    exact ⟨hlen, hact, hscan, hok, hassign⟩

theorem inv_step (d : BTCPriceData) (s : State) (hInv : Inv s) :
    Inv (processPriceData d s) :=
  inv_consider d _ (inv_checkExp d.t d.p s hInv)

theorem inv_foldl (l : List BTCPriceData) (s : State) (hInv : Inv s) :
    Inv (l.foldl (fun s d => processPriceData d s) s) := by
  induction l generalizing s with
  | nil => exact hInv
  | cons d rest ih => exact ih _ (inv_step d s hInv)

theorem inv_run (config : StrategyConfig) (l : List BTCPriceData) :
    Inv (runFlat config l) :=
  inv_foldl l _ (inv_init config)

end Flat

end BtcOptions

namespace BtcOptions

namespace Flat

theorem step_frozen (d : BTCPriceData) (s : State) (hInv : Inv s)
    (h : hasAssigned s.trades) : processPriceData d s = s := by
  obtain ⟨-, -, -, -, hassign⟩ := hInv
  obtain ⟨husd, hactive, -⟩ := hassign h
  rw [processPriceData, checkExp_empty _ _ _ hactive, considerSell_of_not]
  rintro ⟨h1, -⟩
  rw [husd] at h1
  exact lt_irrefl 0 h1

theorem foldl_frozen (l : List BTCPriceData) (s : State) (hInv : Inv s)
    (h : hasAssigned s.trades) :
    l.foldl (fun s d => processPriceData d s) s = s := by
  induction l with
  | nil => rfl
  | cons d rest ih =>
    rw [List.foldl_cons, step_frozen d s hInv h]
    exact ih

theorem runFlat_take_split (config : StrategyConfig) (l : List BTCPriceData) (m n : ℕ)
    (h : m ≤ n) :
    runFlat config (l.take n) =
      ((l.drop m).take (n - m)).foldl (fun s d => processPriceData d s)
        (runFlat config (l.take m)) := by
  have hn : n = m + (n - m) := (Nat.add_sub_cancel' h).symm
  calc runFlat config (l.take n) = runFlat config (l.take (m + (n - m))) := by rw [← hn]
    _ = _ := by rw [List.take_add, runFlat, runFlat, List.foldl_append]

end Flat

/-- C1.  Single-position invariant: along any run of the flat-premium engine
(over every prefix of any price sequence) at most one option contract is
active; a new put is sold (`considerSellingPut` changes the state) only when
the USD balance is positive and no contract is active; and the ledger scan
succeeds, i.e. no two `SELL_PUT` records occur without an intervening
`PUT_EXPIRED`/`PUT_ASSIGNED` record between them. -/
theorem C1_single_position (config : StrategyConfig) (l : List BTCPriceData) (n : ℕ)
    (d : BTCPriceData) (s : Flat.State)
    (hsold : Flat.considerSellingPut d s ≠ s) :
    (Flat.runFlat config (l.take n)).activeOptions.length ≤ 1
    ∧ (0 < s.usdBalance ∧ s.activeOptions = [])
    ∧ (scanLedger false (tradeActions (Flat.runFlat config (l.take n)).trades)).isSome := by
  obtain ⟨hlen, -, hscan, -, -⟩ := Flat.inv_run config (l.take n)
  refine ⟨hlen, ?_, by rw [hscan]; rfl⟩
  by_contra hng
  exact hsold (Flat.considerSell_of_not d s hng)

theorem C1_witness :
    Flat.considerSellingPut ⟨0, 100⟩ (Flat.initState wCfg) ≠ Flat.initState wCfg
    ∧ (0 < (Flat.initState wCfg).usdBalance
        ∧ (Flat.initState wCfg).activeOptions = []) := by
  have h : Flat.considerSellingPut ⟨0, 100⟩ (Flat.initState wCfg) ≠ Flat.initState wCfg := by
    intro heq
    have h2 := congrArg Flat.State.activeOptions heq
    norm_num [Flat.considerSellingPut, Flat.initState, wCfg] at h2
  exact ⟨h, (C1_single_position wCfg [] 0 ⟨0, 100⟩ (Flat.initState wCfg) h).2.1⟩

/-- C2.  Settlement correctness: a contract settled on a tick with price `p`
and strike `k` is assigned exactly when `p < k` (incrementing `assignedPuts`,
buying `usdBalance / k` BTC, zeroing the USD balance and appending a
`PUT_ASSIGNED` record) and otherwise expires (a `PUT_EXPIRED` record, balances
unchanged); consequently every `PUT_ASSIGNED` record in any run's ledger has
settlement price strictly below its recorded strike and every `PUT_EXPIRED`
record has settlement price at or above it. -/
theorem C2_settlement (config : StrategyConfig) (l : List BTCPriceData)
    (t : Int) (p : Rat) (s : Flat.State) (o : Flat.OptionContract)
    (hact : s.activeOptions = [o]) (hA : o.isActive = true) (hexp : o.expiresAt < t) :
    (p < o.strikePrice →
      Flat.checkExpirations t p s =
        { s with
          btcBalance := s.btcBalance + s.usdBalance / o.strikePrice
          usdBalance := 0
          activeOptions := []
          assignedPuts := s.assignedPuts + 1
          trades := s.trades ++
            [{ timestamp := t
               action := .putAssigned
               btcPrice := p
               strikePrice := some o.strikePrice
               premium := none
               btcBalance := s.btcBalance + s.usdBalance / o.strikePrice
               usdBalance := 0 }] })
    ∧ (o.strikePrice ≤ p →
      Flat.checkExpirations t p s =
        { s with
          activeOptions := []
          trades := s.trades ++
            [{ timestamp := t
               action := .putExpired
               btcPrice := p
               strikePrice := some o.strikePrice
               premium := none
               btcBalance := s.btcBalance
               usdBalance := s.usdBalance }] })
    ∧ (∀ tr ∈ (Flat.runFlat config l).trades,
        (tr.action = .putAssigned → ∃ k, tr.strikePrice = some k ∧ tr.btcPrice < k)
        ∧ (tr.action = .putExpired → ∃ k, tr.strikePrice = some k ∧ k ≤ tr.btcPrice)) := by
  obtain ⟨-, -, -, hok, -⟩ := Flat.inv_run config l
  exact ⟨fun hp => Flat.checkExp_assigned t p s o hact hA hexp hp,
    fun hp => Flat.checkExp_expired t p s o hact hA hexp (not_lt.mpr hp),
    hok⟩

theorem C2_witness :
    (90 : Rat) < wOpt.strikePrice
    ∧ Flat.checkExpirations 604800001 90 wState =
      { wState with
        btcBalance := wState.btcBalance + wState.usdBalance / wOpt.strikePrice
        usdBalance := 0
        activeOptions := []
        assignedPuts := wState.assignedPuts + 1
        trades := wState.trades ++
          [{ timestamp := 604800001
             action := .putAssigned
             btcPrice := 90
             strikePrice := some wOpt.strikePrice
             premium := none
             btcBalance := wState.btcBalance + wState.usdBalance / wOpt.strikePrice
             usdBalance := 0 }] } :=
  ⟨by decide,
    (C2_settlement wCfg [] 604800001 90 wState wOpt rfl rfl (by decide)).1 (by decide)⟩

/-- C3.  Strict-inequality expiry boundary: an active contract is settled on a
tick (removed from the active list with a settlement record appended) exactly
when the tick timestamp is strictly greater than its `expiresAt`; in
particular a contract whose `expiresAt` equals the tick timestamp is left
untouched on that tick. -/
theorem C3_strict_expiry (t : Int) (p : Rat) (s : Flat.State) (o : Flat.OptionContract)
    (hact : s.activeOptions = [o]) (hA : o.isActive = true) :
    ((o ∉ (Flat.checkExpirations t p s).activeOptions
        ∧ (Flat.checkExpirations t p s).trades ≠ s.trades) ↔ o.expiresAt < t)
    ∧ (¬ o.expiresAt < t → Flat.checkExpirations t p s = s)
    ∧ (o.expiresAt = t → Flat.checkExpirations t p s = s) := by
  have hkeep : ¬ o.expiresAt < t → Flat.checkExpirations t p s = s := fun hexp =>
    Flat.checkExp_keep t p s o hact hA hexp
  refine ⟨⟨?_, ?_⟩, hkeep, fun he => hkeep (by rw [he]; exact lt_irrefl t)⟩
  · rintro ⟨hnotin, -⟩
    by_contra hexp
    rw [hkeep hexp, hact] at hnotin
    simp at hnotin
  · intro hexp
    by_cases hp : p < o.strikePrice
    · rw [Flat.checkExp_assigned t p s o hact hA hexp hp]
      refine ⟨by simp, ?_⟩
      intro heq
      have := congrArg List.length heq
      simp at this
    · rw [Flat.checkExp_expired t p s o hact hA hexp hp]
      refine ⟨by simp, ?_⟩
      intro heq
      have := congrArg List.length heq
      simp at this

theorem C3_witness :
    wState.activeOptions = [wOpt] ∧ wOpt.expiresAt = 604800000
    ∧ Flat.checkExpirations 604800000 90 wState = wState :=
  ⟨rfl, rfl, (C3_strict_expiry 604800000 90 wState wOpt rfl rfl).2.2 rfl⟩

/-- C4 counterexample.  Running the flat-premium engine with the worked-example
configuration over `[(t0, 100), (t0 + 7d, 90)]` does **not** settle the put on
the second tick: the USD balance stays `1001.9` (not `0`), no put is assigned,
and the ledger holds only the `SELL_PUT` record — because expiry is compared
strictly, the contract expiring exactly at `t0 + 7d` is still open. -/
theorem C4_counterexample :
    (Flat.runFlat wCfg [⟨0, 100⟩, ⟨604800000, 90⟩]).usdBalance = 10019/10
    ∧ (Flat.runFlat wCfg [⟨0, 100⟩, ⟨604800000, 90⟩]).usdBalance ≠ 0
    ∧ (Flat.runFlat wCfg [⟨0, 100⟩, ⟨604800000, 90⟩]).assignedPuts = 0
    ∧ (Flat.runFlat wCfg [⟨0, 100⟩, ⟨604800000, 90⟩]).btcBalance = 0
    ∧ tradeActions (Flat.runFlat wCfg [⟨0, 100⟩, ⟨604800000, 90⟩]).trades =
        [.sellPut] := by
  norm_num [Flat.runFlat, Flat.processPriceData, Flat.checkExpirations, Flat.checkExpLoop,
    Flat.considerSellingPut, Flat.initState, wCfg, addDays, msPerDay, tradeActions]

/-- C4 amended.  With the worked-example configuration, the first tick
`(t0, 100)` sells a put at strike `95` for premium `1.9`, leaving
`usdBalance = 1001.9`; the put is then assigned on the first tick strictly
after `t0 + 7d` (here `t0 + 7d + 1ms`, spot `90 < 95`), giving
`btcBalance = 1001.9 / 95 = 10019/950 ≈ 10.546` and `usdBalance = 0`. -/
theorem C4_amended :
    Flat.runFlat wCfg [⟨0, 100⟩] = wState
    ∧ wState.usdBalance = 10019/10
    ∧ wState.trades = [⟨0, .sellPut, 100, some 95, some (19/10), 0, 10019/10⟩]
    ∧ (Flat.runFlat wCfg [⟨0, 100⟩, ⟨604800001, 90⟩]).btcBalance = 10019/950
    ∧ (Flat.runFlat wCfg [⟨0, 100⟩, ⟨604800001, 90⟩]).usdBalance = 0
    ∧ (Flat.runFlat wCfg [⟨0, 100⟩, ⟨604800001, 90⟩]).assignedPuts = 1
    ∧ tradeActions (Flat.runFlat wCfg [⟨0, 100⟩, ⟨604800001, 90⟩]).trades =
        [.sellPut, .putAssigned] := by
  norm_num [Flat.runFlat, Flat.processPriceData, Flat.checkExpirations, Flat.checkExpLoop,
    Flat.considerSellingPut, Flat.initState, wCfg, wState, wOpt, addDays, msPerDay,
    tradeActions]

/-- C9.  Assignment is terminal: in any run of the flat-premium engine, once a
`PUT_ASSIGNED` record has been written (after `m` ticks), the USD balance is
`0` and remains `0` after any further ticks, the ledger never grows again, and
the `PUT_ASSIGNED` record is the last ledger entry. -/
theorem C9_assignment_terminal (config : StrategyConfig) (l : List BTCPriceData)
    (m n : ℕ) (hmn : m ≤ n)
    (h : ∃ tr ∈ (Flat.runFlat config (l.take m)).trades,
      tr.action = TradeAction.putAssigned) :
    (Flat.runFlat config (l.take n)).usdBalance = 0
    ∧ (Flat.runFlat config (l.take n)).trades = (Flat.runFlat config (l.take m)).trades
    ∧ ((Flat.runFlat config (l.take n)).trades.getLast?).map (·.action) =
        some TradeAction.putAssigned := by
  have hInv := Flat.inv_run config (l.take m)
  have hfroz : Flat.runFlat config (l.take n) = Flat.runFlat config (l.take m) := by
    rw [Flat.runFlat_take_split config l m n hmn]
    exact Flat.foldl_frozen _ _ hInv h
  obtain ⟨-, -, -, -, hassign⟩ := hInv
  obtain ⟨husd, -, hlast⟩ := hassign h
  rw [hfroz]
  exact ⟨husd, rfl, hlast⟩

theorem C9_witness :
    (2 : ℕ) ≤ 2
    ∧ (∃ tr ∈ (Flat.runFlat wCfg ([⟨0, 100⟩, ⟨604800001, 90⟩].take 2)).trades,
        tr.action = TradeAction.putAssigned)
    ∧ (Flat.runFlat wCfg ([⟨0, 100⟩, ⟨604800001, 90⟩].take 2)).usdBalance = 0 := by
  have h : ∃ tr ∈ (Flat.runFlat wCfg ([⟨0, 100⟩, ⟨604800001, 90⟩].take 2)).trades,
      tr.action = TradeAction.putAssigned := by
    norm_num [Flat.runFlat, Flat.processPriceData, Flat.checkExpirations, Flat.checkExpLoop,
      Flat.considerSellingPut, Flat.initState, wCfg, addDays, msPerDay]
  exact ⟨le_refl 2, h,
    (C9_assignment_terminal wCfg [⟨0, 100⟩, ⟨604800001, 90⟩] 2 2 (le_refl 2) h).1⟩

end BtcOptions

namespace BtcOptions

namespace Backtest

theorem tsLe_trans : ∀ (a b c : BTCPriceData), tsLe a b → tsLe b c → tsLe a c := by
  intro a b c hab hbc
  simp only [tsLe, decide_eq_true_eq] at *
  omega

theorem tsLe_total : ∀ (a b : BTCPriceData), tsLe a b || tsLe b a := by
  intro a b
  simp only [tsLe]
  by_cases h : a.t ≤ b.t
  · simp [h]
  · simp [le_of_lt (lt_of_not_le h)]

theorem sorted_filteredInput (l : List BTCPriceData) (sd ed : Option Int) :
    List.Chain' (fun a b : BTCPriceData => a.t ≤ b.t) (filteredInput l sd ed) := by
  have hs : (l.mergeSort tsLe).Pairwise (fun a b => tsLe a b) :=
    List.sorted_mergeSort tsLe_trans tsLe_total l
  have hs' : (filteredInput l sd ed).Pairwise (fun a b : BTCPriceData => a.t ≤ b.t) := by
    refine List.Pairwise.imp ?_ (hs.filter (inRange sd ed))
    intro a b h
    simpa [tsLe] using h
  exact hs'.chain'

theorem inRange_iff (sd ed : Option Int) (d : BTCPriceData) :
    inRange sd ed d = true ↔ ((∀ s ∈ sd, s ≤ d.t) ∧ (∀ e ∈ ed, d.t ≤ e)) := by
  cases sd <;> cases ed <;> simp [inRange]

end Backtest

/-- C5.  Backtest driver preconditions: an empty price sequence fails with the
empty-input error; the sorted-and-filtered sequence fed to the engine is a
permutation of the input sorted ascending by timestamp (never out of order);
the date filter keeps exactly the points in the inclusive range
`[startDate, endDate]`; and, for a nonempty input, the run fails with the
empty-range error exactly when no input point lies in that range. -/
theorem C5_driver (l : List BTCPriceData) (s₀ : Flat.State) (sd ed : Option Int)
    (hne : l ≠ []) :
    (∀ (s' : Flat.State) (sd' ed' : Option Int),
      Backtest.backtestStrategy [] s' sd' ed' = .error Backtest.BacktestError.emptyInput)
    ∧ List.Chain' (fun a b : BTCPriceData => a.t ≤ b.t) (Backtest.filteredInput l sd ed)
    ∧ (l.mergeSort Backtest.tsLe).Perm l
    ∧ (∀ d, Backtest.inRange sd ed d = true ↔
        ((∀ s ∈ sd, s ≤ d.t) ∧ (∀ e ∈ ed, d.t ≤ e)))
    ∧ (Backtest.backtestStrategy l s₀ sd ed = .error Backtest.BacktestError.emptyRange
        ↔ ∀ d ∈ l, ¬((∀ s ∈ sd, s ≤ d.t) ∧ (∀ e ∈ ed, d.t ≤ e))) := by
  refine ⟨fun s' sd' ed' => rfl, Backtest.sorted_filteredInput l sd ed,
    List.mergeSort_perm l Backtest.tsLe, Backtest.inRange_iff sd ed, ?_⟩
  have hlen : ¬ l.length = 0 := by
    simpa [List.length_eq_zero] using hne
  constructor
  · intro h
    rw [Backtest.backtestStrategy, if_neg hlen] at h
    by_cases hf : (Backtest.filteredInput l sd ed).length = 0
    · intro d hd
      rw [← Backtest.inRange_iff sd ed d]
      have hnil : Backtest.filteredInput l sd ed = [] := by
        simpa [List.length_eq_zero] using hf
      rw [Backtest.filteredInput, List.filter_eq_nil_iff] at hnil
      have hmem : d ∈ l.mergeSort Backtest.tsLe := by
        rw [List.mem_mergeSort]
        exact hd
      simpa using hnil d hmem
    · rw [if_neg hf] at h
      exact absurd h (by simp)
  · intro hall
    have hnil : Backtest.filteredInput l sd ed = [] := by
      rw [Backtest.filteredInput, List.filter_eq_nil_iff]
      intro d hd
      rw [List.mem_mergeSort] at hd
      have := hall d hd
      rw [← Backtest.inRange_iff sd ed d] at this
      simpa using this
    rw [Backtest.backtestStrategy, if_neg hlen]
    rw [show Backtest.filteredInput l sd ed = [] from hnil]
    rfl

theorem C5_witness :
    ([(⟨5, 100⟩ : BTCPriceData)] ≠ [])
    ∧ Backtest.backtestStrategy [⟨5, 100⟩] (Flat.initState wCfg) (some 10) none =
        .error Backtest.BacktestError.emptyRange := by
  have hne : ([(⟨5, 100⟩ : BTCPriceData)] ≠ []) := by simp
  refine ⟨hne, ?_⟩
  refine (C5_driver [⟨5, 100⟩] (Flat.initState wCfg) (some 10) none hne).2.2.2.2.mpr ?_
  intro d hd
  simp only [List.mem_singleton] at hd
  subst hd
  rintro ⟨hs, -⟩
  have h10 : (10 : Int) ≤ 5 := hs 10 rfl
  omega

end BtcOptions

namespace BtcOptions

namespace Vol

theorem lnJs_of_pos (p : Rat) (hp : 0 < p) : lnJs p = .fin (Real.log (p : ℝ)) := by
  rw [lnJs, if_neg (not_lt.mpr hp.le), if_neg hp.ne']

theorem addJs_fin (a b : ℝ) : addJs (.fin a) (.fin b) = .fin (a + b) := rfl

theorem subJs_fin (a b : ℝ) : subJs (.fin a) (.fin b) = .fin (a - b) := rfl

theorem sqJs_fin (a : ℝ) : sqJs (.fin a) = .fin (a ^ 2) := rfl

theorem mulJs_fin (a b : ℝ) : mulJs (.fin a) (.fin b) = .fin (a * b) := rfl

theorem maxJs_fin (a b : ℝ) : maxJs (.fin a) (.fin b) = .fin (max a b) := rfl

theorem minJs_fin (a b : ℝ) : minJs (.fin a) (.fin b) = .fin (min a b) := rfl

theorem divJs_fin (a b : ℝ) (hb : b ≠ 0) : divJs (.fin a) (.fin b) = .fin (a / b) := by
  show (if b = 0 then (if a = 0 then JsNum.nan else if a < 0 then JsNum.ninf else JsNum.inf)
    else JsNum.fin (a / b)) = JsNum.fin (a / b)
  rw [if_neg hb]

theorem sqrtJs_fin (a : ℝ) (ha : ¬ a < 0) : sqrtJs (.fin a) = .fin (Real.sqrt a) := by
  show (if a < 0 then JsNum.nan else JsNum.fin (Real.sqrt a)) = JsNum.fin (Real.sqrt a)
  rw [if_neg ha]

theorem addJs_nan_left (x : JsNum) : addJs .nan x = .nan := by cases x <;> rfl

theorem addJs_nan_right (x : JsNum) : addJs x .nan = .nan := by cases x <;> rfl

theorem subJs_nan_left (x : JsNum) : subJs .nan x = .nan := by cases x <;> rfl

theorem subJs_nan_right (x : JsNum) : subJs x .nan = .nan := by cases x <;> rfl

theorem sqJs_nan : sqJs .nan = .nan := rfl

theorem divJs_nan_left (x : JsNum) : divJs .nan x = .nan := by cases x <;> rfl

theorem sqrtJs_nan : sqrtJs .nan = .nan := rfl

theorem mulJs_nan_left (x : JsNum) : mulJs .nan x = .nan := by cases x <;> rfl

theorem maxJs_nan_left (x : JsNum) : maxJs .nan x = .nan := by cases x <;> rfl

theorem minJs_nan_left (x : JsNum) : minJs .nan x = .nan := by cases x <;> rfl

theorem foldl_addJs_nan_init (l : List JsNum) : l.foldl addJs .nan = .nan := by
  induction l with
  | nil => rfl
  | cons a rest ih =>
    rw [List.foldl_cons, addJs_nan_left]
    exact ih

theorem foldl_addJs_nan (l : List JsNum) (c : JsNum) (h : JsNum.nan ∈ l) :
    l.foldl addJs c = .nan := by
  induction l generalizing c with
  | nil => simp at h
  | cons a rest ih =>
    rcases List.mem_cons.mp h with ha | h'
    · rw [List.foldl_cons, ← ha, addJs_nan_right]
      exact foldl_addJs_nan_init rest
    · rw [List.foldl_cons]
      exact ih _ h'

theorem foldl_addJs_fin (l : List ℝ) (c : ℝ) :
    (l.map JsNum.fin).foldl addJs (.fin c) = .fin (l.foldl (· + ·) c) := by
  induction l generalizing c with
  | nil => rfl
  | cons a rest ih =>
    simp only [List.map_cons, List.foldl_cons, addJs_fin]
    exact ih (c + a)

theorem foldl_add_nonneg (l : List ℝ) (c : ℝ) (hc : 0 ≤ c) (h : ∀ x ∈ l, 0 ≤ x) :
    0 ≤ l.foldl (· + ·) c := by
  induction l generalizing c with
  | nil => exact hc
  | cons a rest ih =>
    rw [List.foldl_cons]
    exact ih (c + a) (add_nonneg hc (h a (List.mem_cons_self a rest)))
      (fun x hx => h x (List.mem_cons_of_mem a hx))

theorem logReturnAtJs_fin (pd : List BTCPriceData) (w j : Nat) (hj : j < w)
    (hlen : w + 1 ≤ pd.length) (hpos : ∀ d ∈ pd, 0 < d.p) :
    logReturnAtJs pd j = .fin (logReturnAt pd j) := by
  have hc : pd.length - (j + 1) < pd.length := by omega
  have hp : pd.length - (j + 2) < pd.length := by omega
  have hcur : pd.getD (pd.length - (j + 1)) ⟨0, 0⟩ ∈ pd := by
    rw [pd.getD_eq_getElem ⟨0, 0⟩ hc]
    exact List.getElem_mem hc
  have hprev : pd.getD (pd.length - (j + 2)) ⟨0, 0⟩ ∈ pd := by
    rw [pd.getD_eq_getElem ⟨0, 0⟩ hp]
    exact List.getElem_mem hp
  rw [logReturnAtJs, lnJs_of_pos _ (hpos _ hcur), lnJs_of_pos _ (hpos _ hprev), subJs_fin]
  rfl

theorem volatilityJs_nan (pd : List BTCPriceData) (w : Nat)
    (hlen : w + 1 ≤ pd.length)
    (hmem : JsNum.nan ∈ (List.range w).map (logReturnAtJs pd)) :
    calculateHistoricalVolatilityJs pd w = .nan := by
  rw [calculateHistoricalVolatilityJs, if_neg (by omega)]
  dsimp only
  rw [foldl_addJs_nan _ _ hmem, divJs_nan_left]
  have hsq : ((List.range w).map (logReturnAtJs pd)).map
        (fun r => sqJs (subJs r .nan)) =
      ((List.range w).map (logReturnAtJs pd)).map (fun _ => JsNum.nan) :=
    List.map_congr_left (fun r _ => by rw [subJs_nan_right, sqJs_nan])
  rw [hsq]
  rw [foldl_addJs_nan _ _ (List.mem_map_of_mem (fun _ => JsNum.nan) hmem)]
  rw [divJs_nan_left, sqrtJs_nan, mulJs_nan_left, maxJs_nan_left, minJs_nan_left]

theorem sq_map_fin (l : List ℝ) (m : ℝ) :
    (l.map JsNum.fin).map (fun r => sqJs (subJs r (.fin m))) =
    (l.map (fun r => (r - m) ^ 2)).map JsNum.fin := by
  induction l with
  | nil => rfl
  | cons a rest ih =>
    simp only [List.map_cons]
    rw [ih]
    rfl

theorem jsPipeline_fin (Lr : List ℝ) (h2 : 2 ≤ Lr.length) :
    minJs (maxJs (mulJs (sqrtJs (divJs
          (((Lr.map JsNum.fin).map (fun r => sqJs (subJs r
              (divJs ((Lr.map JsNum.fin).foldl addJs (.fin 0))
                (.fin (((Lr.map JsNum.fin).length : ℕ) : ℝ)))))).foldl addJs (.fin 0))
          (.fin ((((Lr.map JsNum.fin).length : ℕ) : ℝ) - 1))))
        (sqrtJs (.fin 365))) (.fin 0.1)) (.fin 2.0)
    = .fin (min (max (Real.sqrt
        ((Lr.map (fun r => (r - Lr.foldl (· + ·) 0 / ((Lr.length : ℕ) : ℝ)) ^ 2)).foldl
            (· + ·) 0 /
          (((Lr.length : ℕ) : ℝ) - 1)) * Real.sqrt 365) 0.1) 2.0) := by
  have hR : (2 : ℝ) ≤ ((Lr.length : ℕ) : ℝ) := by exact_mod_cast h2
  have hne1 : ((Lr.length : ℕ) : ℝ) ≠ 0 := ne_of_gt (by linarith)
  have hne2 : ((Lr.length : ℕ) : ℝ) - 1 ≠ 0 := ne_of_gt (by linarith)
  have hvar : ¬ ((Lr.map
        (fun r => (r - Lr.foldl (· + ·) 0 / ((Lr.length : ℕ) : ℝ)) ^ 2)).foldl (· + ·) 0 /
      (((Lr.length : ℕ) : ℝ) - 1)) < 0 := by
    refine not_lt.mpr (div_nonneg ?_ (by linarith))
    refine foldl_add_nonneg _ _ le_rfl ?_
    intro x hx
    obtain ⟨r, -, rfl⟩ := List.mem_map.mp hx
    positivity
  rw [List.length_map, foldl_addJs_fin, divJs_fin _ _ hne1, sq_map_fin, foldl_addJs_fin,
    divJs_fin _ _ hne2, sqrtJs_fin _ hvar, sqrtJs_fin 365 (by norm_num), mulJs_fin,
    maxJs_fin, minJs_fin]

theorem volatilityJs_agrees (pd : List BTCPriceData) (w : Nat)
    (hlen : w + 1 ≤ pd.length) (hw : 2 ≤ w) (hpos : ∀ d ∈ pd, 0 < d.p) :
    calculateHistoricalVolatilityJs pd w = .fin (volatilityBody pd w) := by
  have hnotlt : ¬ pd.length < w + 1 := by omega
  rw [calculateHistoricalVolatilityJs, if_neg hnotlt]
  dsimp only
  have hmapeq : (List.range w).map (logReturnAtJs pd) =
      ((List.range w).map (logReturnAt pd)).map JsNum.fin := by
    rw [List.map_map]
    exact List.map_congr_left (fun j hj =>
      logReturnAtJs_fin pd w j (List.mem_range.mp hj) hlen hpos)
  have h2 : 2 ≤ ((List.range w).map (logReturnAt pd)).length := by
    rw [List.length_map, List.length_range]
    exact hw
  rw [hmapeq, jsPipeline_fin _ h2]
  rw [volatilityBody]

end Vol

/-- C6 counterexample.  A sufficient window (31 points, default
`windowSize 30`) whose newest price is negative: under decimal.js semantics
`Decimal.ln` returns `NaN` without throwing, the `catch` never fires, and
`NaN` propagates to the result — which is neither the default `0.5` nor any
value of the clamp range `[0.10, 2.00]` (it is no real value at all). -/
theorem C6_counterexample :
    30 + 1 ≤ wNeg.length
    ∧ Vol.calculateHistoricalVolatilityJs wNeg 30 = .nan
    ∧ Vol.calculateHistoricalVolatilityJs wNeg 30 ≠ .fin 0.5
    ∧ (∀ v : ℝ, Vol.calculateHistoricalVolatilityJs wNeg 30 ≠ .fin v) := by
  have hlen : wNeg.length = 31 := by
    rw [wNeg, List.length_map, List.length_range]
  have h30 : wNeg.getD (wNeg.length - (0 + 1)) ⟨0, 0⟩ = ⟨30, -1⟩ := by
    rw [hlen]
    rfl
  have h29 : wNeg.getD (wNeg.length - (0 + 2)) ⟨0, 0⟩ = ⟨29, 1⟩ := by
    rw [hlen]
    rfl
  have hln : Vol.lnJs (-1) = .nan := by
    rw [Vol.lnJs, if_pos (by norm_num : (-1 : ℚ) < 0)]
  have h0 : Vol.logReturnAtJs wNeg 0 = .nan := by
    rw [Vol.logReturnAtJs, h30, h29]
    show Vol.subJs (Vol.lnJs (-1)) (Vol.lnJs 1) = .nan
    rw [hln, Vol.subJs_nan_left]
  have hmem : Vol.JsNum.nan ∈ (List.range 30).map (Vol.logReturnAtJs wNeg) :=
    h0 ▸ List.mem_map_of_mem (Vol.logReturnAtJs wNeg) (by decide : (0 : ℕ) ∈ List.range 30)
  have hmain : Vol.calculateHistoricalVolatilityJs wNeg 30 = .nan :=
    Vol.volatilityJs_nan wNeg 30 (by omega) hmem
  refine ⟨by omega, hmain, ?_, ?_⟩
  · rw [hmain]
    exact fun h => Vol.JsNum.noConfusion h
  · intro v
    rw [hmain]
    exact fun h => Vol.JsNum.noConfusion h

/-- C6 (amended).  Volatility estimator policy, as the floats actually behave:
with fewer than `windowSize + 1` points the estimator returns exactly `0.5`;
for a sufficient window of positive prices (with `windowSize ≥ 2`, as in the
default `30`) the float computation agrees with the idealized real-valued
estimator consumed by the engine, whose annualized Bessel-corrected sample
volatility is clamped into `[0.10, 2.00]`; and an arithmetic failure does
**not** yield the default — a `NaN` log return (e.g. from a negative price)
propagates to a `NaN` result, the function merely never throwing. -/
theorem C6_volatility (pd : List BTCPriceData) (w : Nat) :
    (pd.length < w + 1 → Vol.calculateHistoricalVolatilityJs pd w = .fin 0.5)
    ∧ (w + 1 ≤ pd.length → 2 ≤ w → (∀ d ∈ pd, 0 < d.p) →
        Vol.calculateHistoricalVolatilityJs pd w =
          .fin (Vol.calculateHistoricalVolatility pd w)
        ∧ 0.1 ≤ Vol.calculateHistoricalVolatility pd w
        ∧ Vol.calculateHistoricalVolatility pd w ≤ 2.0)
    ∧ (w + 1 ≤ pd.length →
        Vol.JsNum.nan ∈ (List.range w).map (Vol.logReturnAtJs pd) →
        Vol.calculateHistoricalVolatilityJs pd w = .nan) := by
  refine ⟨?_, ?_, ?_⟩
  · intro h
    rw [Vol.calculateHistoricalVolatilityJs, if_pos h]
  · intro hlen hw hpos
    have hreal : Vol.calculateHistoricalVolatility pd w = Vol.volatilityBody pd w := by
      rw [Vol.calculateHistoricalVolatility, if_neg (by omega)]
    refine ⟨by rw [hreal]; exact Vol.volatilityJs_agrees pd w hlen hw hpos, ?_, ?_⟩
    · rw [hreal, Vol.volatilityBody]
      exact le_min (le_max_right _ _) (by norm_num)
    · rw [hreal, Vol.volatilityBody]
      exact min_le_right _ _
  · exact Vol.volatilityJs_nan pd w

theorem C6_witness :
    2 + 1 ≤ [(⟨0, 1⟩ : BTCPriceData), ⟨1, 1⟩, ⟨2, 1⟩].length
    ∧ 2 ≤ 2
    ∧ (∀ d ∈ [(⟨0, 1⟩ : BTCPriceData), ⟨1, 1⟩, ⟨2, 1⟩], 0 < d.p)
    ∧ (Vol.calculateHistoricalVolatilityJs [⟨0, 1⟩, ⟨1, 1⟩, ⟨2, 1⟩] 2 =
        .fin (Vol.calculateHistoricalVolatility [⟨0, 1⟩, ⟨1, 1⟩, ⟨2, 1⟩] 2)
      ∧ 0.1 ≤ Vol.calculateHistoricalVolatility [⟨0, 1⟩, ⟨1, 1⟩, ⟨2, 1⟩] 2
      ∧ Vol.calculateHistoricalVolatility [⟨0, 1⟩, ⟨1, 1⟩, ⟨2, 1⟩] 2 ≤ 2.0) := by
  have hpos : ∀ d ∈ [(⟨0, 1⟩ : BTCPriceData), ⟨1, 1⟩, ⟨2, 1⟩], 0 < d.p := by
    intro d hd
    simp only [List.mem_cons, List.not_mem_nil, or_false] at hd
    rcases hd with rfl | rfl | rfl <;> norm_num
  exact ⟨by simp, le_refl 2, hpos,
    (C6_volatility [⟨0, 1⟩, ⟨1, 1⟩, ⟨2, 1⟩] 2).2.1 (by simp) (le_refl 2) hpos⟩

end BtcOptions

namespace BtcOptions

/-- C7.  Put-call parity: for all valid inputs (`t > 0`, `σ > 0`) the put
premium computed by `calculateOptionPremium` satisfies
`call - put = spot - strike * exp(-r*t)` at the module's risk-free rate
`r = 0.05`, i.e. `put = call + strike * exp(-r*t) - spot` holds as an identity
of the two embedded pricing functions. -/
theorem C7_put_call_parity (S K t σ : ℝ) (ht : 0 < t) (hσ : 0 < σ) :
    Pricing.calculateCallPrice S K t σ 0.05 - Pricing.calculateOptionPremium S K t σ =
      S - K * Real.exp (-0.05 * t) := by
  unfold Pricing.calculateOptionPremium
  ring

theorem C7_witness :
    (0 : ℝ) < 1 ∧ (0 : ℝ) < 1
    ∧ Pricing.calculateCallPrice 1 1 1 1 0.05 - Pricing.calculateOptionPremium 1 1 1 1 =
        1 - 1 * Real.exp (-0.05 * 1) :=
  ⟨one_pos, one_pos, C7_put_call_parity 1 1 1 1 one_pos one_pos⟩

namespace Pricing

theorem pAS_pos : (0 : ℝ) < pAS := by norm_num [pAS]

theorem tAS_pos (y : ℝ) (hy : 0 ≤ y) : 0 < tAS y := by
  have hden : (0 : ℝ) < 1 + pAS * y := by nlinarith [pAS_pos]
  exact div_pos one_pos hden

theorem tAS_le_one (y : ℝ) (hy : 0 ≤ y) : tAS y ≤ 1 := by
  have hden : (0 : ℝ) < 1 + pAS * y := by nlinarith [pAS_pos]
  rw [tAS, div_le_one hden]
  nlinarith [pAS_pos]

theorem tAS_antitone (y y' : ℝ) (hy : 0 ≤ y) (hyy : y ≤ y') : tAS y' ≤ tAS y := by
  unfold tAS
  apply one_div_le_one_div_of_le
  · nlinarith [pAS_pos]
  · nlinarith [pAS_pos]

theorem hornerP_mono (u v : ℝ) (hu : 0 ≤ u) (huv : u ≤ v) (hv : v ≤ 1) :
    hornerP u ≤ hornerP v := by
  unfold hornerP a1 a2 a3 a4 a5
  have h1 : (0 : ℝ) ≤ u := hu
  have h2 : (0 : ℝ) ≤ v - u := sub_nonneg.mpr huv
  have h3 : (0 : ℝ) ≤ 1 - v := sub_nonneg.mpr hv
  nlinarith [mul_nonneg h1 h1, mul_nonneg h1 h2, mul_nonneg h1 h3, mul_nonneg h2 h2,
    mul_nonneg h2 h3, mul_nonneg h3 h3, mul_nonneg (mul_nonneg h1 h1) h1,
    mul_nonneg (mul_nonneg h1 h1) h2, mul_nonneg (mul_nonneg h1 h1) h3,
    mul_nonneg (mul_nonneg h1 h2) h2, mul_nonneg (mul_nonneg h1 h2) h3,
    mul_nonneg (mul_nonneg h1 h3) h3, mul_nonneg (mul_nonneg h2 h2) h2,
    mul_nonneg (mul_nonneg h2 h2) h3, mul_nonneg (mul_nonneg h2 h3) h3,
    mul_nonneg (mul_nonneg h3 h3) h3]

theorem hornerP_zero : hornerP 0 = 0 := by norm_num [hornerP]

theorem hornerP_nonneg (u : ℝ) (hu : 0 ≤ u) (h1 : u ≤ 1) : 0 ≤ hornerP u := by
  have := hornerP_mono 0 u le_rfl hu h1
  rwa [hornerP_zero] at this

theorem hornerP_le_P_one (u : ℝ) (hu : 0 ≤ u) (h1 : u ≤ 1) : hornerP u ≤ hornerP 1 :=
  hornerP_mono u 1 hu h1 le_rfl

theorem hornerP_one_lt_one : hornerP 1 < 1 := by
  norm_num [hornerP, a1, a2, a3, a4, a5]

theorem erf_eq_of_nonneg (x : ℝ) (hx : 0 ≤ x) :
    erf x = 1 - hornerP (tAS x) * Real.exp (-x * x) := by
  simp only [erf]
  rw [if_neg (not_lt.mpr hx), abs_of_nonneg hx, one_mul]

theorem erf_eq_of_neg (x : ℝ) (hx : x < 0) :
    erf x = -(1 - hornerP (tAS (-x)) * Real.exp (-(-x) * -x)) := by
  simp only [erf]
  rw [if_pos hx, abs_of_neg hx, neg_one_mul]

theorem sqrt_two_pos : (0 : ℝ) < Real.sqrt 2 := Real.sqrt_pos.mpr (by norm_num)

theorem div_sqrt_two_sq (x : ℝ) : (x / Real.sqrt 2) * (x / Real.sqrt 2) = x ^ 2 / 2 := by
  rw [div_mul_div_comm, Real.mul_self_sqrt (by norm_num : (0:ℝ) ≤ 2)]
  ring

theorem one_sub_normalCDF_of_nonneg (x : ℝ) (hx : 0 ≤ x) :
    1 - normalCDF x =
      2⁻¹ * hornerP (tAS (x / Real.sqrt 2)) * Real.exp (-(x ^ 2 / 2)) := by
  have hx2 : 0 ≤ x / Real.sqrt 2 := div_nonneg hx (Real.sqrt_nonneg 2)
  rw [normalCDF, erf_eq_of_nonneg _ hx2]
  rw [show -(x / Real.sqrt 2) * (x / Real.sqrt 2) = -(x ^ 2 / 2) from by
    rw [neg_mul, div_sqrt_two_sq]]
  ring

theorem one_sub_normalCDF_of_neg (x : ℝ) (hx : x < 0) :
    1 - normalCDF x =
      1 - 2⁻¹ * hornerP (tAS (-(x / Real.sqrt 2))) * Real.exp (-(x ^ 2 / 2)) := by
  have hx2 : x / Real.sqrt 2 < 0 := div_neg_of_neg_of_pos hx sqrt_two_pos
  rw [normalCDF, erf_eq_of_neg _ hx2]
  rw [show -(-(x / Real.sqrt 2)) * -(x / Real.sqrt 2) = -(x ^ 2 / 2) from by
    rw [show -(-(x / Real.sqrt 2)) * -(x / Real.sqrt 2) =
      -((x / Real.sqrt 2) * (x / Real.sqrt 2)) from by ring, div_sqrt_two_sq]]
  ring

end Pricing

end BtcOptions

namespace BtcOptions

namespace Pricing

theorem d2_eq (S K t σ r : ℝ) : d2 S K t σ r = d1 S K t σ r - σ * Real.sqrt t := rfl

theorem d1_eq (S K t σ r : ℝ) :
    d1 S K t σ r =
      (Real.log (S / K) + (r + σ * σ / 2) * t) / (σ * Real.sqrt t) := rfl

theorem sq_diff_d (S K t σ r : ℝ) (ht : 0 < t) (hσ : 0 < σ) :
    d1 S K t σ r ^ 2 - d2 S K t σ r ^ 2 = 2 * (Real.log (S / K) + r * t) := by
  have hst : (0 : ℝ) < σ * Real.sqrt t := mul_pos hσ (Real.sqrt_pos.mpr ht)
  have hst2 : (σ * Real.sqrt t) ^ 2 = σ ^ 2 * t := by
    rw [mul_pow, Real.sq_sqrt ht.le]
  rw [d2_eq, d1_eq]
  have hexpand : ∀ (A B : ℝ), B ≠ 0 → (A / B) ^ 2 - (A / B - B) ^ 2 = 2 * A - B ^ 2 := by
    intro A B hB
    field_simp
    ring
  rw [hexpand _ _ hst.ne']
  rw [hst2]
  ring

theorem exp_identity (S K t σ r : ℝ) (hS : 0 < S) (hK : 0 < K) (ht : 0 < t) (hσ : 0 < σ) :
    S * Real.exp (-(d1 S K t σ r ^ 2 / 2)) =
      K * Real.exp (-r * t) * Real.exp (-(d2 S K t σ r ^ 2 / 2)) := by
  have hdiff := sq_diff_d S K t σ r ht hσ
  have harg : -(d2 S K t σ r ^ 2 / 2) =
      -(d1 S K t σ r ^ 2 / 2) + (Real.log (S / K) + r * t) := by
    linarith
  rw [harg, Real.exp_add, Real.exp_add, Real.exp_log (div_pos hS hK)]
  rw [show (-r * t : ℝ) = -(r * t) from by ring, Real.exp_neg]
  have h1 : Real.exp (r * t) ≠ 0 := Real.exp_ne_zero _
  have h2 : Real.exp (-(r * t)) * Real.exp (r * t) = 1 := by
    rw [← Real.exp_add]
    simp
  field_simp
  linear_combination (-(K * S * Real.exp (d1 S K t σ r ^ 2 / 2))) * h2

end Pricing

end BtcOptions

namespace BtcOptions

namespace Pricing

theorem core_both_nonneg (KE S E1 E2 P1 P2 : ℝ)
    (hsub : S * (2⁻¹ * P1 * E1) = 2⁻¹ * P1 * (KE * E2))
    (hKEE2 : 0 ≤ KE * E2) (hP : P1 ≤ P2) :
    0 ≤ KE * (2⁻¹ * P2 * E2) - S * (2⁻¹ * P1 * E1) := by
  nlinarith [mul_nonneg hKEE2 (sub_nonneg.mpr hP)]

theorem core_mixed (KE S E1 E2 P1 P2 c : ℝ)
    (hsub : S * (2⁻¹ * P1 * E1) = 2⁻¹ * P1 * (KE * E2))
    (hKE : 0 < KE) (hE2le : E2 ≤ 1)
    (hP1 : 0 ≤ P1) (hP1c : P1 ≤ c) (hP2 : 0 ≤ P2) (hP2c : P2 ≤ c) (hc : c < 1) :
    0 ≤ KE * (1 - 2⁻¹ * P2 * E2) - S * (2⁻¹ * P1 * E1) := by
  have h1 : E2 * (P1 + P2) ≤ P1 + P2 := mul_le_of_le_one_left (add_nonneg hP1 hP2) hE2le
  nlinarith [mul_le_mul_of_nonneg_left h1 hKE.le,
    mul_le_mul_of_nonneg_left (show P1 + P2 ≤ 2 * c from by linarith) hKE.le]

theorem core_both_neg (KE S E1 E2 P1 P2 : ℝ)
    (hKES : S ≤ KE)
    (hsub : KE * (2⁻¹ * P2 * E2) = 2⁻¹ * P2 * (S * E1))
    (hprod : 0 ≤ S * E1 * (P1 - P2)) :
    0 ≤ KE * (1 - 2⁻¹ * P2 * E2) - S * (1 - 2⁻¹ * P1 * E1) := by
  nlinarith [hsub, hKES, hprod]

theorem putPremium_nonneg_general (S K t σ r : ℝ) (hS : 0 < S) (hK : 0 < K)
    (ht : 0 < t) (hσ : 0 < σ) :
    0 ≤ calculateCallPrice S K t σ r + K * Real.exp (-r * t) - S := by
  have hexpand : calculateCallPrice S K t σ r + K * Real.exp (-r * t) - S =
      K * Real.exp (-r * t) * (1 - normalCDF (d2 S K t σ r)) -
        S * (1 - normalCDF (d1 S K t σ r)) := by
    unfold calculateCallPrice
    ring
  rw [hexpand]
  have hst : 0 < σ * Real.sqrt t := mul_pos hσ (Real.sqrt_pos.mpr ht)
  have hkey := exp_identity S K t σ r hS hK ht hσ
  set D1 := d1 S K t σ r with hD1def
  set D2 := d2 S K t σ r with hD2def
  have hd21 : D2 < D1 := by
    rw [hD2def, d2_eq, ← hD1def]
    linarith
  have hKE : 0 < K * Real.exp (-r * t) := mul_pos hK (Real.exp_pos _)
  have hE1 : 0 < Real.exp (-(D1 ^ 2 / 2)) := Real.exp_pos _
  have hE2 : 0 < Real.exp (-(D2 ^ 2 / 2)) := Real.exp_pos _
  rcases le_or_lt 0 D2 with h2 | h2
  · -- both d-terms nonnegative
    have h1 : (0 : ℝ) ≤ D1 := le_trans h2 hd21.le
    rw [one_sub_normalCDF_of_nonneg D2 h2, one_sub_normalCDF_of_nonneg D1 h1]
    have hy1 : 0 ≤ D1 / Real.sqrt 2 := div_nonneg h1 (Real.sqrt_nonneg 2)
    have hy2 : 0 ≤ D2 / Real.sqrt 2 := div_nonneg h2 (Real.sqrt_nonneg 2)
    have hyy : D2 / Real.sqrt 2 ≤ D1 / Real.sqrt 2 :=
      (div_le_div_right sqrt_two_pos).mpr hd21.le
    have hτ21 : tAS (D1 / Real.sqrt 2) ≤ tAS (D2 / Real.sqrt 2) := tAS_antitone _ _ hy2 hyy
    have hτ1pos : 0 ≤ tAS (D1 / Real.sqrt 2) := (tAS_pos _ hy1).le
    have hτ2le : tAS (D2 / Real.sqrt 2) ≤ 1 := tAS_le_one _ hy2
    have hP : hornerP (tAS (D1 / Real.sqrt 2)) ≤ hornerP (tAS (D2 / Real.sqrt 2)) :=
      hornerP_mono _ _ hτ1pos hτ21 hτ2le
    have hsub : S * (2⁻¹ * hornerP (tAS (D1 / Real.sqrt 2)) * Real.exp (-(D1 ^ 2 / 2))) =
        2⁻¹ * hornerP (tAS (D1 / Real.sqrt 2)) *
          (K * Real.exp (-r * t) * Real.exp (-(D2 ^ 2 / 2))) := by
      linear_combination (2⁻¹ * hornerP (tAS (D1 / Real.sqrt 2))) * hkey
    exact core_both_nonneg _ _ _ _ _ _ hsub (mul_pos hKE hE2).le hP
  · rcases le_or_lt 0 D1 with h1 | h1
    · -- D2 < 0 ≤ D1
      rw [one_sub_normalCDF_of_nonneg D1 h1, one_sub_normalCDF_of_neg D2 h2]
      have hy1 : 0 ≤ D1 / Real.sqrt 2 := div_nonneg h1 (Real.sqrt_nonneg 2)
      have hy2 : 0 ≤ -(D2 / Real.sqrt 2) := by
        have : D2 / Real.sqrt 2 < 0 := div_neg_of_neg_of_pos h2 sqrt_two_pos
        linarith
      have hP1pos : 0 ≤ hornerP (tAS (D1 / Real.sqrt 2)) :=
        hornerP_nonneg _ (tAS_pos _ hy1).le (tAS_le_one _ hy1)
      have hP1le : hornerP (tAS (D1 / Real.sqrt 2)) ≤ hornerP 1 :=
        hornerP_le_P_one _ (tAS_pos _ hy1).le (tAS_le_one _ hy1)
      have hP2pos : 0 ≤ hornerP (tAS (-(D2 / Real.sqrt 2))) :=
        hornerP_nonneg _ (tAS_pos _ hy2).le (tAS_le_one _ hy2)
      have hP2le : hornerP (tAS (-(D2 / Real.sqrt 2))) ≤ hornerP 1 :=
        hornerP_le_P_one _ (tAS_pos _ hy2).le (tAS_le_one _ hy2)
      have hE2le1 : Real.exp (-(D2 ^ 2 / 2)) ≤ 1 := by
        rw [show (1 : ℝ) = Real.exp 0 from (Real.exp_zero).symm]
        apply Real.exp_le_exp.mpr
        nlinarith [sq_nonneg D2]
      have hsub : S * (2⁻¹ * hornerP (tAS (D1 / Real.sqrt 2)) * Real.exp (-(D1 ^ 2 / 2))) =
          2⁻¹ * hornerP (tAS (D1 / Real.sqrt 2)) *
            (K * Real.exp (-r * t) * Real.exp (-(D2 ^ 2 / 2))) := by
        linear_combination (2⁻¹ * hornerP (tAS (D1 / Real.sqrt 2))) * hkey
      exact core_mixed _ _ _ _ _ _ (hornerP 1) hsub hKE hE2le1
        hP1pos hP1le hP2pos hP2le hornerP_one_lt_one
    · -- D1 < 0 (hence D2 < 0)
      rw [one_sub_normalCDF_of_neg D1 h1, one_sub_normalCDF_of_neg D2 h2]
      have hA : Real.log (S / K) + (r + σ * σ / 2) * t < 0 := by
        by_contra hA
        push_neg at hA
        have : 0 ≤ D1 := by
          rw [hD1def, d1_eq]
          exact div_nonneg hA hst.le
        linarith
      have hlog : Real.log (S / K) < -(r * t) := by
        nlinarith [mul_pos (mul_pos hσ hσ) ht]
      have hSK : S / K < Real.exp (-(r * t)) := by
        calc S / K = Real.exp (Real.log (S / K)) := (Real.exp_log (div_pos hS hK)).symm
          _ < Real.exp (-(r * t)) := Real.exp_lt_exp.mpr hlog
      have hKES : S ≤ K * Real.exp (-r * t) := by
        have h' := (div_lt_iff hK).mp hSK
        calc S ≤ Real.exp (-(r * t)) * K := h'.le
          _ = K * Real.exp (-r * t) := by
            rw [show (-r * t : ℝ) = -(r * t) from by ring]
            ring
      have hy1 : 0 ≤ -(D1 / Real.sqrt 2) := by
        have : D1 / Real.sqrt 2 < 0 := div_neg_of_neg_of_pos h1 sqrt_two_pos
        linarith
      have hy2 : 0 ≤ -(D2 / Real.sqrt 2) := by
        have : D2 / Real.sqrt 2 < 0 := div_neg_of_neg_of_pos h2 sqrt_two_pos
        linarith
      have hyy : -(D1 / Real.sqrt 2) ≤ -(D2 / Real.sqrt 2) := by
        have : D2 / Real.sqrt 2 ≤ D1 / Real.sqrt 2 :=
          (div_le_div_right sqrt_two_pos).mpr hd21.le
        linarith
      have hτ : tAS (-(D2 / Real.sqrt 2)) ≤ tAS (-(D1 / Real.sqrt 2)) :=
        tAS_antitone _ _ hy1 hyy
      have hP : hornerP (tAS (-(D2 / Real.sqrt 2))) ≤ hornerP (tAS (-(D1 / Real.sqrt 2))) :=
        hornerP_mono _ _ (tAS_pos _ hy2).le hτ (tAS_le_one _ hy1)
      have hsub : K * Real.exp (-r * t) *
            (2⁻¹ * hornerP (tAS (-(D2 / Real.sqrt 2))) * Real.exp (-(D2 ^ 2 / 2))) =
          2⁻¹ * hornerP (tAS (-(D2 / Real.sqrt 2))) * (S * Real.exp (-(D1 ^ 2 / 2))) := by
        linear_combination (-(2⁻¹ * hornerP (tAS (-(D2 / Real.sqrt 2))))) * hkey
      exact core_both_neg _ _ _ _ _ _ hKES hsub
        (mul_nonneg (mul_nonneg hS.le hE1.le) (sub_nonneg.mpr hP))

end Pricing

/-- C8.  Pricer non-negativity: for every valid input (`spot > 0`, `strike > 0`,
`timeToExpiryYears > 0`, `volatility > 0`, at the module's risk-free rate
`0.05`), the put premium returned by `calculateOptionPremium` is `≥ 0`. -/
theorem C8_premium_nonneg (S K t σ : ℝ) (hS : 0 < S) (hK : 0 < K)
    (ht : 0 < t) (hσ : 0 < σ) :
    0 ≤ Pricing.calculateOptionPremium S K t σ := by
  have h := Pricing.putPremium_nonneg_general S K t σ 0.05 hS hK ht hσ
  unfold Pricing.calculateOptionPremium
  exact h

theorem C8_witness :
    (0 : ℝ) < 2 ∧ (0 : ℝ) < 3 ∧ (0 : ℝ) < 1 ∧ (0 : ℝ) < 1
    ∧ 0 ≤ Pricing.calculateOptionPremium 2 3 1 1 :=
  ⟨by norm_num, by norm_num, one_pos, one_pos,
    C8_premium_nonneg 2 3 1 1 (by norm_num) (by norm_num) one_pos one_pos⟩

end BtcOptions

namespace BtcOptions

namespace BS

theorem trimIf_length (l : List BTCPriceData) :
    (if maxPriceHistory < l.length then l.tail else l).length ≤ l.length := by
  split
  · simp [List.length_tail]
  · exact le_refl _

theorem trimIf_mem (x : BTCPriceData) (l : List BTCPriceData)
    (hx : x ∈ (if maxPriceHistory < l.length then l.tail else l)) : x ∈ l := by
  split at hx
  · exact List.mem_of_mem_tail hx
  · exact hx

theorem trimIf_chain (l : List BTCPriceData)
    (hc : List.Chain' (fun a b : BTCPriceData => a.t < b.t) l) :
    List.Chain' (fun a b : BTCPriceData => a.t < b.t)
      (if maxPriceHistory < l.length then l.tail else l) := by
  split
  · exact hc.tail
  · exact hc

theorem updatePriceHistory_length_le (d : BTCPriceData) (h : List BTCPriceData) :
    (updatePriceHistory d h).length ≤ h.length + 1 := by
  cases hl : h.getLast? with
  | none =>
    simp only [updatePriceHistory, hl]
    split
    · calc _ ≤ (h ++ [d]).length := trimIf_length _
        _ = h.length + 1 := by simp
    · exact Nat.le_succ _
  | some lastPoint =>
    simp only [updatePriceHistory, hl]
    split
    · calc _ ≤ (h ++ [d]).length := trimIf_length _
        _ = h.length + 1 := by simp
    · exact Nat.le_succ _

theorem mem_updatePriceHistory (x d : BTCPriceData) (h : List BTCPriceData)
    (hx : x ∈ updatePriceHistory d h) : x ∈ h ∨ x = d := by
  cases hl : h.getLast? with
  | none =>
    simp only [updatePriceHistory, hl] at hx
    split at hx
    · rcases List.mem_append.mp (trimIf_mem x _ hx) with h1 | h1
      · exact Or.inl h1
      · right
        simpa using h1
    · exact Or.inl hx
  | some lastPoint =>
    simp only [updatePriceHistory, hl] at hx
    split at hx
    · rcases List.mem_append.mp (trimIf_mem x _ hx) with h1 | h1
      · exact Or.inl h1
      · right
        simpa using h1
    · exact Or.inl hx

theorem chain_updatePriceHistory (d : BTCPriceData) (h : List BTCPriceData)
    (hc : List.Chain' (fun a b : BTCPriceData => a.t < b.t) h) :
    List.Chain' (fun a b : BTCPriceData => a.t < b.t) (updatePriceHistory d h) := by
  cases hl : h.getLast? with
  | none =>
    have hnil : h = [] := by simpa using hl
    subst hnil
    simp [updatePriceHistory, maxPriceHistory]
  | some lastPoint =>
    simp only [updatePriceHistory, hl]
    split
    next hdec =>
      have hlt : lastPoint.t < d.t := of_decide_eq_true hdec
      apply trimIf_chain
      rw [List.chain'_append]
      refine ⟨hc, by simp, ?_⟩
      intro x hx y hy
      rw [hl] at hx
      simp only [Option.mem_def, Option.some.injEq] at hx
      simp only [List.head?_cons, Option.mem_def, Option.some.injEq] at hy
      subst hx
      subst hy
      exact hlt
    next hdec => exact hc

theorem checkExpLoop_aux (t : Int) (p : Rat) (opts : List OptionContract) (s : State)
    (acc : List OptionContract) :
    (checkExpLoop t p opts s acc).priceHistory = s.priceHistory
    ∧ (checkExpLoop t p opts s acc).config = s.config
    ∧ (checkExpLoop t p opts s acc).currentDate = s.currentDate := by
  induction opts generalizing s acc with
  | nil => exact ⟨rfl, rfl, rfl⟩
  | cons o rest ih =>
    unfold checkExpLoop
    split
    · exact ih s acc
    · split
      · split
        · exact ih _ acc
        · exact ih _ acc
      · exact ih s _

theorem checkExp_noActive (t : Int) (p : Rat) (s : State) (h : s.activeOptions = []) :
    checkExpirations t p s = s := by
  unfold checkExpirations
  rw [h]
  show { s with activeOptions := [] } = s
  rw [← h]

theorem considerSell_priceHistory (d : BTCPriceData) (s : State) :
    (considerSellingPut d s).priceHistory = s.priceHistory := by
  unfold considerSellingPut
  split
  · rfl
  · rfl

theorem processPriceData_priceHistory (d : BTCPriceData) (s : State) :
    (processPriceData d s).priceHistory = updatePriceHistory d s.priceHistory := by
  unfold processPriceData
  dsimp only
  split
  · rw [considerSell_priceHistory]
    exact (checkExpLoop_aux d.t d.p _ _ _).1
  · exact (checkExpLoop_aux d.t d.p _ _ _).1

end BS

end BtcOptions

namespace BtcOptions

theorem bs_early (l : List BTCPriceData) (s : BS.State)
    (hact : s.activeOptions = []) (htr : s.trades = [])
    (hlen : s.priceHistory.length + l.length ≤ 30) :
    (l.foldl (fun s d => BS.processPriceData d s) s).trades = []
    ∧ (l.foldl (fun s d => BS.processPriceData d s) s).activeOptions = []
    ∧ (l.foldl (fun s d => BS.processPriceData d s) s).priceHistory.length ≤
        s.priceHistory.length + l.length := by
  induction l generalizing s with
  | nil => exact ⟨htr, hact, by simp⟩
  | cons d rest ih =>
    have hupd := BS.updatePriceHistory_length_le d s.priceHistory
    have hlen' : s.priceHistory.length + (rest.length + 1) ≤ 30 := by
      simpa using hlen
    have hgate : ¬ (BS.minPriceHistory ≤
        (BS.checkExpirations d.t d.p
          { s with
            currentDate := d.t
            priceHistory := BS.updatePriceHistory d s.priceHistory }).priceHistory.length) := by
      rw [BS.checkExp_noActive d.t d.p
        { s with
          currentDate := d.t
          priceHistory := BS.updatePriceHistory d s.priceHistory } hact]
      show ¬ (BS.minPriceHistory ≤ (BS.updatePriceHistory d s.priceHistory).length)
      simp only [BS.minPriceHistory]
      omega
    have hstep2 : BS.processPriceData d s =
        { s with
          currentDate := d.t
          priceHistory := BS.updatePriceHistory d s.priceHistory } := by
      unfold BS.processPriceData
      dsimp only
      rw [if_neg hgate, BS.checkExp_noActive d.t d.p
        { s with
          currentDate := d.t
          priceHistory := BS.updatePriceHistory d s.priceHistory } hact]
    rw [List.foldl_cons, hstep2]
    have h3 := ih
      { s with
        currentDate := d.t
        priceHistory := BS.updatePriceHistory d s.priceHistory } hact htr
      (by
        show (BS.updatePriceHistory d s.priceHistory).length + rest.length ≤ 30
        omega)
    refine ⟨h3.1, h3.2.1, le_trans h3.2.2 ?_⟩
    show (BS.updatePriceHistory d s.priceHistory).length + rest.length ≤
      s.priceHistory.length + (d :: rest).length
    simp only [List.length_cons]
    omega

theorem bs_gated (l : List BTCPriceData) (s : BS.State)
    (hchain : List.Chain' (fun a b : BTCPriceData => a.t < b.t) s.priceHistory)
    (hbound : ∀ x ∈ s.priceHistory, ∀ hd ∈ l.head?, x.t ≤ hd.t)
    (hsort : List.Chain' (fun a b : BTCPriceData => a.t ≤ b.t) l) :
    BS.sellsGatedFrom s l
    ∧ List.Chain' (fun a b : BTCPriceData => a.t < b.t)
        ((l.foldl (fun s d => BS.processPriceData d s) s).priceHistory) := by
  induction l generalizing s with
  | nil => exact ⟨trivial, hchain⟩
  | cons d rest ih =>
    obtain ⟨hd_head, hsort'⟩ := List.chain'_cons'.mp hsort
    have hble : ∀ x ∈ s.priceHistory, x.t ≤ d.t := fun x hx => hbound x hx d rfl
    have hupd_le : ∀ x ∈ BS.updatePriceHistory d s.priceHistory, x.t ≤ d.t := by
      intro x hx
      rcases BS.mem_updatePriceHistory x d _ hx with h | rfl
      · exact hble x h
      · exact le_refl _
    have hfilter : BS.getPastPriceHistory d.t (BS.updatePriceHistory d s.priceHistory) =
        BS.updatePriceHistory d s.priceHistory := by
      unfold BS.getPastPriceHistory
      rw [List.filter_eq_self]
      intro a ha
      simpa using hupd_le a ha
    have hchain' := BS.chain_updatePriceHistory d s.priceHistory hchain
    have hhist := BS.processPriceData_priceHistory d s
    have hchain'' : List.Chain' (fun a b : BTCPriceData => a.t < b.t)
        (BS.processPriceData d s).priceHistory := by
      rw [hhist]
      exact hchain'
    have hbound' : ∀ x ∈ (BS.processPriceData d s).priceHistory,
        ∀ y ∈ rest.head?, x.t ≤ y.t := by
      rw [hhist]
      intro x hx y hy
      exact le_trans (hupd_le x hx) (hd_head y hy)
    have hih := ih (BS.processPriceData d s) hchain'' hbound' hsort'
    exact ⟨⟨fun hg => by rw [hfilter]; exact hg, hih.1⟩, hih.2⟩

/-- C10.  History gating in the Black-Scholes engine variant: over any
chronologically sorted input, no `SELL_PUT` trade is ever recorded during the
first 30 processed price points (the retained strictly-increasing history
cannot reach the `minPriceHistory = 31` gate before then), at every issuance
gate the history handed to the volatility estimator still holds at least 31
points (so the estimator's insufficient-history default is never used at
issuance), and the retained price history stays strictly increasing. -/
theorem C10_history_gating (config : StrategyConfig) (l : List BTCPriceData)
    (hsort : List.Chain' (fun a b : BTCPriceData => a.t ≤ b.t) l) :
    (∀ n ≤ 30, ∀ tr ∈ (BS.runBS config (l.take n)).trades,
      tr.action ≠ TradeAction.sellPut)
    ∧ BS.sellsGatedFrom (BS.initState config) l
    ∧ List.Chain' (fun a b : BTCPriceData => a.t < b.t)
        ((BS.runBS config l).priceHistory) := by
  have hgated := bs_gated l (BS.initState config)
    (by simp [BS.initState]) (by simp [BS.initState]) hsort
  refine ⟨?_, hgated.1, hgated.2⟩
  intro n hn tr htr
  have hearly := bs_early (l.take n) (BS.initState config) rfl rfl
    (by
      have h1 : (l.take n).length ≤ n := by
        simpa using List.length_take_le n l
      show (BS.initState config).priceHistory.length + (l.take n).length ≤ 30
      simp only [BS.initState, List.length_nil]
      omega)
  have htrades : (BS.runBS config (l.take n)).trades = [] := hearly.1
  rw [htrades] at htr
  simp at htr

theorem C10_witness :
    List.Chain' (fun a b : BTCPriceData => a.t ≤ b.t)
      [(⟨0, 100⟩ : BTCPriceData), ⟨1, 101⟩]
    ∧ BS.sellsGatedFrom (BS.initState ⟨1, 50000, 2/100, 5/100, 7⟩)
        [(⟨0, 100⟩ : BTCPriceData), ⟨1, 101⟩] := by
  have hs : List.Chain' (fun a b : BTCPriceData => a.t ≤ b.t)
      [(⟨0, 100⟩ : BTCPriceData), ⟨1, 101⟩] := by
    simp [List.chain'_cons]
  exact ⟨hs, (C10_history_gating ⟨1, 50000, 2/100, 5/100, 7⟩
    [(⟨0, 100⟩ : BTCPriceData), ⟨1, 101⟩] hs).2.1⟩

end BtcOptions
